import Mathlib

/-!
Shallow embedding of the OFDM resource-grid subsystem of sionna
(src/sionna/phy/ofdm/pilot_pattern.py and src/sionna/phy/ofdm/resource_grid.py).

Tensors are embedded as total functions from natural-number indices together
with explicit dimension fields; machine integers are embedded as `Nat`/`Int`;
the complex pilot values of the data-movement layers are embedded over a
generic carrier type `α` with a zero (the mapper/demapper never compute on
the values, they only move them), while the normalization arithmetic of the
pilots getter is embedded over `ℂ`.  Fallible construction paths (Python
asserts and NumPy errors) are embedded as `Except String`.
-/

set_option maxRecDepth 100000

namespace Sionna

/-! ### Python / NumPy index helpers -/

/-- Python slice semantics for an upper bound: `l[:i]`.  A negative `i`
counts from the end of the list, as in Python and in TensorFlow strided
slices. -/
def pyTake {α : Type} (i : Int) (l : List α) : List α :=
  if 0 ≤ i then l.take i.toNat else l.take (l.length - (-i).toNat)

/-- Python slice semantics for a lower bound: `l[i:]`. -/
def pyDrop {α : Type} (i : Int) (l : List α) : List α :=
  if 0 ≤ i then l.drop i.toNat else l.drop (l.length - (-i).toNat)

/-- NumPy `np.delete(l, i)` for a possibly negative index `i` (a negative
index counts from the end).  An index that is out of range after this
adjustment raises in NumPy; here `eraseIdx` leaves the list unchanged, and
every theorem below only uses in-range indices. -/
def npDelete {α : Type} (l : List α) (i : Int) : List α :=
  l.eraseIdx (if i < 0 then i + l.length else i).toNat

/-! ### PilotPattern (pilot_pattern.py, class PilotPattern) -/

/-- The boolean pilot mask tensor
`[num_tx, num_streams_per_tx, num_ofdm_symbols, num_effective_subcarriers]`,
embedded as its four dimensions plus a total indexing function. -/
structure MaskT where
  numTx : Nat
  numStreams : Nat
  numSym : Nat
  numSc : Nat
  val : Nat → Nat → Nat → Nat → Bool

/-- The pilot value tensor `[num_tx, num_streams_per_tx, num_pilots]`. -/
structure PilotsT (α : Type) where
  numTx : Nat
  numStreams : Nat
  numPilots : Nat
  val : Nat → Nat → Nat → α

/-- `tf.reduce_sum(mask, axis=(-2,-1))` at one `(tx, stream)` pair: the
number of `True` entries of `mask[t, s]`. -/
def maskCount (m : MaskT) (t s : Nat) : Nat :=
  ((List.range m.numSym).flatMap fun y =>
    (List.range m.numSc).map fun e => if m.val t s y e then 1 else 0).sum

/-- The `[num_tx, num_streams_per_tx]` tensor of per-pair pilot counts,
flattened row-major. -/
def maskCounts (m : MaskT) : List Nat :=
  (List.range m.numTx).flatMap fun t =>
    (List.range m.numStreams).map fun s => maskCount m t s

/-- `PilotPattern._check_settings`.  The two rank asserts hold structurally
in this embedding (the dimensions are explicit fields); the remaining three
asserts are: the first two dimensions of `mask` and `pilots` agree, the
per-pair pilot counts have equal minimum and maximum, and the last dimension
of `pilots` equals the maximal per-pair count. -/
def checkSettings {α : Type} (m : MaskT) (p : PilotsT α) : Bool :=
  (m.numTx == p.numTx && m.numStreams == p.numStreams)
    && ((maskCounts m).min?.getD 0 == (maskCounts m).max?.getD 0)
    && (p.numPilots == (maskCounts m).max?.getD 0)

/-- A constructed `PilotPattern`: stored mask, stored pilot values and the
`normalize` flag. -/
structure PilotPatternT (α : Type) where
  mask : MaskT
  pilots : PilotsT α
  normalize : Bool

/-- `PilotPattern.__init__`: store the mask and the pilots, then run
`_check_settings`; construction fails if any assert fires. -/
def pilotPatternConstruct {α : Type} (m : MaskT) (p : PilotsT α) (n : Bool) :
    Except String (PilotPatternT α) :=
  if checkSettings m p then .ok ⟨m, p, n⟩
  else .error "AssertionError: invalid pilot pattern"

/-- The `pilots` property setter: it only casts the new value to the
configured complex dtype and stores it; it performs no validation. -/
def setPilots {α : Type} (pp : PilotPatternT α) (v : PilotsT α) : PilotPatternT α :=
  { pp with pilots := v }

/-- `PilotPattern.num_data_symbols`:
`mask.shape[-1] * mask.shape[-2] - num_pilot_symbols` (a signed tensor
value in the source, hence `Int`). -/
def ppNumDataSymbols (m : MaskT) (np : Nat) : Int :=
  (m.numSc * m.numSym : Int) - np

/-- Mean pilot energy of one `(tx, stream)` pair:
`tf.reduce_mean(tf.abs(pilots)**2, axis=-1)`. -/
noncomputable def meanEnergy (p : PilotsT ℂ) (t s : Nat) : ℝ :=
  (∑ j ∈ Finset.range p.numPilots, Complex.abs (p.val t s j) ^ 2) / p.numPilots

/-- The normalization factor `1 / tf.sqrt(reduce_mean(|pilots|^2))` of one
`(tx, stream)` pair, cast to the complex dtype. -/
noncomputable def normScale (p : PilotsT ℂ) (t s : Nat) : ℂ :=
  ((1 / Real.sqrt (meanEnergy p t s) : ℝ) : ℂ)

/-- The `pilots` property getter: if `normalize` is set it returns the
stored values rescaled per `(tx, stream)` pair, otherwise the stored values
unchanged.  It is a pure read: the stored field is not modified. -/
noncomputable def pilotsGetter (pp : PilotPatternT ℂ) : Nat → Nat → Nat → ℂ :=
  fun t s j =>
    if pp.normalize then normScale pp.pilots t s * pp.pilots.val t s j
    else pp.pilots.val t s j

/-! ### ResourceGrid configuration (resource_grid.py, class ResourceGrid) -/

/-- The constructor arguments of `ResourceGrid` that the claims depend on.
`cyclic_prefix_length` and the two guard-carrier counts are nonnegative
machine integers here (`Nat`), so the asserts `cp >= 0`,
`num_guard_carriers >= 0` and `len(num_guard_carriers) == 2` of
`_check_settings` hold structurally. -/
structure RGConfig where
  numOfdmSymbols : Nat
  fftSize : Nat
  subcarrierSpacing : Rat
  numTx : Nat
  numStreamsPerTx : Nat
  cyclicPrefixLength : Nat
  guardLeft : Nat
  guardRight : Nat
  dcNull : Bool

/-- `int(dc_null)`. -/
def dcBit (cfg : RGConfig) : Nat := if cfg.dcNull then 1 else 0

/-- `ResourceGrid.num_effective_subcarriers`:
`fft_size - dc_null - np.sum(num_guard_carriers)` over machine integers. -/
def numEffectiveSubcarriers (cfg : RGConfig) : Int :=
  (cfg.fftSize : Int) - dcBit cfg - (cfg.guardLeft + cfg.guardRight)

/-- `ResourceGrid.dc_ind`: `int(fft_size/2 - (fft_size%2==1)/2)`.  The float
expression is exact (both halves have exact binary representations and the
subtraction is exact), its value `(fft_size - fft_size%2) / 2` is a
nonnegative integer, and `int()` truncation is the identity on it; it is
embedded here by that exact integer value. -/
def dcInd (cfg : RGConfig) : Nat :=
  (cfg.fftSize - (if cfg.fftSize % 2 = 1 then 1 else 0)) / 2

/-- `ResourceGrid._check_settings`.  Note that `subcarrier_spacing` is never
inspected.  The guard-carrier bound is
`np.sum(num_guard_carriers) <= fft_size - dc_null` over signed integers. -/
def rgCheckSettings (cfg : RGConfig) : Bool :=
  decide (0 < cfg.numOfdmSymbols) && decide (0 < cfg.fftSize)
    && decide (cfg.cyclicPrefixLength ≤ cfg.fftSize)
    && decide (0 < cfg.numTx) && decide (0 < cfg.numStreamsPerTx)
    && decide ((cfg.guardLeft + cfg.guardRight : Int) ≤ (cfg.fftSize : Int) - dcBit cfg)

/-- The all-`False` mask of `EmptyPilotPattern`, of shape
`[num_tx, num_streams_per_tx, num_ofdm_symbols, num_effective_subcarriers]`. -/
def emptyMask (cfg : RGConfig) : MaskT :=
  ⟨cfg.numTx, cfg.numStreamsPerTx, cfg.numOfdmSymbols,
    (numEffectiveSubcarriers cfg).toNat, fun _ _ _ _ => false⟩

/-- The empty pilot tensor of `EmptyPilotPattern`, of shape
`[num_tx, num_streams_per_tx, 0]`. -/
def emptyPilots (α : Type) [Zero α] (cfg : RGConfig) : PilotsT α :=
  ⟨cfg.numTx, cfg.numStreamsPerTx, 0, fun _ _ _ => 0⟩

/-- `EmptyPilotPattern.__init__`: four positivity asserts, then the shared
`PilotPattern` constructor on the all-zero mask and empty pilots. -/
def emptyPatternConstruct (α : Type) [Zero α] (cfg : RGConfig) :
    Except String (PilotPatternT α) :=
  if cfg.numTx = 0 then .error "AssertionError: num_tx must be positive"
  else if cfg.numStreamsPerTx = 0 then
    .error "AssertionError: num_streams_per_tx must be positive"
  else if cfg.numOfdmSymbols = 0 then
    .error "AssertionError: num_ofdm_symbols must be positive"
  else if numEffectiveSubcarriers cfg ≤ 0 then
    .error "AssertionError: num_effective_subcarriers must be positive"
  else pilotPatternConstruct (emptyMask cfg) (emptyPilots α cfg) false

/-! ### KroneckerPilotPattern (pilot_pattern.py, class KroneckerPilotPattern) -/

/-- The Kronecker mask: `mask[..., pilot_ofdm_symbol_indices, :] = True` on
an all-`False` tensor of shape
`[num_tx, num_streams_per_tx, num_ofdm_symbols, num_effective_subcarriers]`. -/
def kroneckerMask (cfg : RGConfig) (P : List Nat) : MaskT :=
  ⟨cfg.numTx, cfg.numStreamsPerTx, cfg.numOfdmSymbols,
    (numEffectiveSubcarriers cfg).toNat, fun _ _ sym _ => P.contains sym⟩

/-- The Kronecker pilot tensor after the final reshape to
`[num_tx, num_streams_per_tx, len(P) * num_effective_subcarriers]`.  Before
the reshape, entry `(t, s, symIdx, k)` is the QPSK draw
`q t s symIdx (k / num_seq)` when `k` is on the comb of the stream's linear
index `t*num_streams_per_tx + s` (that is,
`pilots[t, s, :, t*num_streams_per_tx + s :: num_seq] = p`) and `0`
otherwise; the reshape makes the flat index `j = symIdx * E + k`.  The
pseudorandom `QAMSource` is an out-of-scope collaborator and is passed in
as the abstract source `q`. -/
def kroneckerPilots {α : Type} [Zero α] (cfg : RGConfig) (P : List Nat)
    (q : Nat → Nat → Nat → Nat → α) : PilotsT α :=
  ⟨cfg.numTx, cfg.numStreamsPerTx, P.length * (numEffectiveSubcarriers cfg).toNat,
    fun t s j =>
      if (j % (numEffectiveSubcarriers cfg).toNat) % (cfg.numTx * cfg.numStreamsPerTx)
          = t * cfg.numStreamsPerTx + s then
        q t s (j / (numEffectiveSubcarriers cfg).toNat)
          ((j % (numEffectiveSubcarriers cfg).toNat) / (cfg.numTx * cfg.numStreamsPerTx))
      else 0⟩

/-- `KroneckerPilotPattern.__init__`.  The failure cases, in source order:
`num_seq = 0` or `len(P) = 0` raise `ZeroDivisionError` in the computation
of `num_pilots` and of the assert's left-hand side; the assert
`(num_pilots / num_pilot_symbols) % 1 == 0` is, in exact arithmetic,
`num_effective_subcarriers % num_seq == 0`; `np.zeros` raises on a negative
dimension; the mask assignment raises `IndexError` on an out-of-range
symbol index; finally the shared `PilotPattern` constructor re-checks the
per-pair pilot counts. -/
def kroneckerConstruct {α : Type} [Zero α] (cfg : RGConfig) (P : List Nat)
    (q : Nat → Nat → Nat → Nat → α) : Except String (PilotPatternT α) :=
  if cfg.numTx * cfg.numStreamsPerTx = 0 then .error "ZeroDivisionError"
  else if P.length = 0 then .error "ZeroDivisionError"
  else if numEffectiveSubcarriers cfg % (cfg.numTx * cfg.numStreamsPerTx : Int) ≠ 0 then
    .error "AssertionError: num_effective_subcarriers must be an integer multiple of num_tx times num_streams_per_tx"
  else if numEffectiveSubcarriers cfg < 0 then
    .error "ValueError: negative dimensions are not allowed"
  else if ¬ P.all (fun p => p < cfg.numOfdmSymbols) then
    .error "IndexError: symbol index out of bounds"
  else pilotPatternConstruct (kroneckerMask cfg P) (kroneckerPilots cfg P q) true

/-- The pilot-pattern policy accepted by the `ResourceGrid` constructor:
`None`, the string shorthands, or an already constructed `PilotPattern`. -/
inductive PilotPolicy (α : Type) where
  | auto : PilotPolicy α
  | empty : PilotPolicy α
  | kronecker (P : List Nat) : PilotPolicy α
  | supplied (pp : PilotPatternT α) : PilotPolicy α

/-- A constructed `ResourceGrid`: its configuration and its pilot pattern. -/
structure RGT (α : Type) where
  cfg : RGConfig
  pattern : PilotPatternT α

/-- `ResourceGrid.__init__`: store the attributes, resolve the pilot-pattern
policy through the `pilot_pattern` setter (which may itself fail), then run
`_check_settings`.  A supplied `PilotPattern` instance is accepted without
any cross-validation against the grid. -/
def rgConstruct {α : Type} [Zero α] (cfg : RGConfig) (pol : PilotPolicy α)
    (q : Nat → Nat → Nat → Nat → α) : Except String (RGT α) :=
  match (match pol with
    | .auto => emptyPatternConstruct α cfg
    | .empty => emptyPatternConstruct α cfg
    | .kronecker P => kroneckerConstruct cfg P q
    | .supplied pp => .ok pp) with
  | .error e => .error e
  | .ok pp =>
    if rgCheckSettings cfg then .ok ⟨cfg, pp⟩
    else .error "AssertionError: invalid resource grid"

/-- Construction success of a `ResourceGrid`. -/
def rgConstructOk {α : Type} [Zero α] (cfg : RGConfig) (pol : PilotPolicy α)
    (q : Nat → Nat → Nat → Nat → α) : Bool :=
  (rgConstruct cfg pol q).isOk

/-! ### ResourceGrid.build_type_grid -/

/-- `dc_ind - num_guard_carriers[0]` over signed integers. -/
def splitInd (cfg : RGConfig) : Int :=
  (dcInd cfg : Int) - cfg.guardLeft

/-- One subcarrier row of the pilot mask, cast to `int32`
(`tf.cast(mask, tf.int32)` stores the mask as 0/1 integers). -/
def maskRow (m : MaskT) (t s sym : Nat) : List Nat :=
  (List.range m.numSc).map fun e => if m.val t s sym e then 1 else 0

/-- One subcarrier row of `ResourceGrid.build_type_grid()`:
`tf.concat([gc_l, mask[..., :split_ind], dc, mask[..., split_ind:], gc_r], -1)`
with type codes 0 = data, 1 = pilot, 2 = guard, 3 = DC.  The slices follow
Python semantics (`pyTake`/`pyDrop`), so a negative `split_ind` counts from
the end of the mask row. -/
def typeRow (cfg : RGConfig) (m : MaskT) (t s sym : Nat) : List Nat :=
  List.replicate cfg.guardLeft 2
    ++ pyTake (splitInd cfg) (maskRow m t s sym)
    ++ (if cfg.dcNull then [3] else [])
    ++ pyDrop (splitInd cfg) (maskRow m t s sym)
    ++ List.replicate cfg.guardRight 2

/-- The type code of one resource element; out-of-range subcarriers read the
sentinel 4. -/
def typeAt (cfg : RGConfig) (m : MaskT) (t s sym sc : Nat) : Nat :=
  (typeRow cfg m t s sym).getD sc 4

/-- Modelled from the spec: the layout sentence of §4.2 / claim C5 reads
"left guards, mask positions below split index `dc_ind - left_guard_count`,
the DC block (iff `dc_null`), the remaining mask positions, right guards",
i.e. a plain (clamped-at-zero) split of the mask row at the split index. -/
def specTypeRow (cfg : RGConfig) (m : MaskT) (t s sym : Nat) : List Nat :=
  List.replicate cfg.guardLeft 2
    ++ (maskRow m t s sym).take (splitInd cfg).toNat
    ++ (if cfg.dcNull then [3] else [])
    ++ (maskRow m t s sym).drop (splitInd cfg).toNat
    ++ List.replicate cfg.guardRight 2

/-- The count of one type code over the whole per-stream type grid
(`num_ofdm_symbols` rows). -/
def typeGridCount (cfg : RGConfig) (m : MaskT) (t s c : Nat) : Nat :=
  ((List.range cfg.numOfdmSymbols).map fun sym => (typeRow cfg m t s sym).count c).sum

/-! ### ResourceGridMapper -/

/-- All `[num_tx, num_streams_per_tx, num_ofdm_symbols, fft_size]` index
tuples in row-major order, as enumerated by `tf.where`. -/
def positionsList (cfg : RGConfig) : List (Nat × Nat × Nat × Nat) :=
  (List.range cfg.numTx).flatMap fun t =>
    (List.range cfg.numStreamsPerTx).flatMap fun s =>
      (List.range cfg.numOfdmSymbols).flatMap fun sym =>
        (List.range cfg.fftSize).map fun sc => (t, s, sym, sc)

/-- `tf.where(rg_type == 0)`: the data positions, in row-major order. -/
def dataIndexList (cfg : RGConfig) (m : MaskT) : List (Nat × Nat × Nat × Nat) :=
  (positionsList cfg).filter fun pos =>
    typeAt cfg m pos.1 pos.2.1 pos.2.2.1 pos.2.2.2 == 0

/-- `tf.where(rg_type == 1)`: the pilot positions, in row-major order. -/
def pilotIndexList (cfg : RGConfig) (m : MaskT) : List (Nat × Nat × Nat × Nat) :=
  (positionsList cfg).filter fun pos =>
    typeAt cfg m pos.1 pos.2.1 pos.2.2.1 pos.2.2.2 == 1

/-- `flatten_last_dims(pilots, 3)` of the three-dimensional pilot tensor:
the full row-major flattening. -/
def flatPilots {α : Type} (p : PilotsT α) : List α :=
  (List.range p.numTx).flatMap fun t =>
    (List.range p.numStreams).flatMap fun s =>
      (List.range p.numPilots).map fun j => p.val t s j

/-- `flatten_last_dims(inputs, 3)` of the data tensor
`[batch, num_tx, num_streams_per_tx, num_data_symbols]` at one batch index
(the transpose that puts the batch axis last is index bookkeeping in this
functional embedding). -/
def flatData {α : Type} (cfg : RGConfig) (nd : Nat)
    (x : Nat → Nat → Nat → Nat → α) (b : Nat) : List α :=
  (List.range cfg.numTx).flatMap fun t =>
    (List.range cfg.numStreamsPerTx).flatMap fun s =>
      (List.range nd).map fun k => x b t s k

/-- `ResourceGridMapper.call`: scatter the pilot values into the pilot
positions of a zero template (`tf.scatter_nd`), then scatter the flattened
data symbols into the data positions (`tf.tensor_scatter_nd_update`).  The
`n`-th row-major index of each `tf.where` list receives the `n`-th flattened
value; every other position keeps the template zero.  `pil` is the (possibly
normalized) pilot tensor read from the pattern's `pilots` property, and `nd`
is the length of the last axis of the input. -/
def mapGrid {α : Type} [Zero α] (cfg : RGConfig) (m : MaskT) (pil : PilotsT α)
    (nd : Nat) (x : Nat → Nat → Nat → Nat → α) :
    Nat → Nat → Nat → Nat → Nat → α :=
  fun b t s sym sc =>
    match (dataIndexList cfg m).findIdx? (fun pos => pos = (t, s, sym, sc)) with
    | some g => (flatData cfg nd x b).getD g 0
    | none =>
      match (pilotIndexList cfg m).findIdx? (fun pos => pos = (t, s, sym, sc)) with
      | some g => (flatPilots pil).getD g 0
      | none => 0

/-! ### ResourceGridDemapper and RemoveNulledSubcarriers -/

/-- `ResourceGrid.effective_subcarrier_ind`:
`range(num_guard_carriers[0], fft_size - num_guard_carriers[1])`, with the
DC index deleted at position `dc_ind - num_guard_carriers[0]` when
`dc_null` is set. -/
def effSubcarrierInd (cfg : RGConfig) : List Nat :=
  if cfg.dcNull then
    npDelete (List.range' cfg.guardLeft (cfg.fftSize - cfg.guardRight - cfg.guardLeft))
      ((dcInd cfg : Int) - cfg.guardLeft)
  else List.range' cfg.guardLeft (cfg.fftSize - cfg.guardRight - cfg.guardLeft)

/-- `flatten_last_dims(mask)`: the last two axes of `mask[t, s]` flattened
row-major into one boolean vector of length
`num_ofdm_symbols * num_effective_subcarriers`. -/
def flatMaskBits (m : MaskT) (t s : Nat) : List Bool :=
  (List.range (m.numSym * m.numSc)).map fun j => m.val t s (j / m.numSc) (j % m.numSc)

/-- `tf.argsort(bits, direction="ASCENDING")` on a 0/1 vector: the indices
of the zeros in ascending position order, followed by the indices of the
ones (the TensorFlow sort keeps equal entries in position order here). -/
def argsortZerosFirst (bits : List Bool) : List Nat :=
  ((List.range bits.length).filter fun i => bits.getD i false == false)
    ++ ((List.range bits.length).filter fun i => bits.getD i false == true)

/-- The precomputed `_data_ind` of `ResourceGridDemapper` at one
`(tx, stream)` pair: `argsort(flatten_last_dims(mask))[..., :num_data_symbols]`
(the slice follows Python semantics for a possibly negative length). -/
def demapDataInd (m : MaskT) (np : Nat) (t s : Nat) : List Nat :=
  pyTake (ppNumDataSymbols m np) (argsortZerosFirst (flatMaskBits m t s))

/-- `ResourceGridDemapper.call` on a received grid
`y : batch → rx → stream_per_rx → ofdm_symbol → subcarrier → α` (the
optional trailing data dimension is elided: it is added as a size-1 dummy
and squeezed again).  Steps: gather the effective subcarriers, flatten the
receive axes (`smRxStreams` streams per receiver), reorder with the
stream-management table `streamInd`, split into `(tx, stream)` with `smS`
streams per transmitter, flatten `(symbol, effective subcarrier)` and gather
the data positions. -/
def demap {α : Type} [Zero α] (cfg : RGConfig) (m : MaskT) (np : Nat)
    (smS : Nat) (streamInd : Nat → Nat) (smRxStreams : Nat)
    (y : Nat → Nat → Nat → Nat → Nat → α) : Nat → Nat → Nat → Nat → α :=
  fun b t s k =>
    let eI := effSubcarrierInd cfg
    let y1 : Nat → Nat → Nat → Nat → α :=
      fun r sr sym e => y b r sr sym (eI.getD e 0)
    let flatY : Nat → Nat → Nat → α :=
      fun i sym e => y1 (i / smRxStreams) (i % smRxStreams) sym e
    let w : Nat → Nat → Nat → Nat → α :=
      fun t' s' sym e => flatY (streamInd (t' * smS + s')) sym e
    let v : Nat → Nat → Nat → α :=
      fun t' s' j => w t' s' (j / eI.length) (j % eI.length)
    v t s ((demapDataInd m np t s).getD k 0)

/-- `RemoveNulledSubcarriers.call`: a pure gather of the effective
subcarriers along the last axis. -/
def removeNulled {α : Type} [Zero α] (cfg : RGConfig)
    (g : Nat → Nat → Nat → Nat → Nat → α) : Nat → Nat → Nat → Nat → Nat → α :=
  fun b t s sym e => g b t s sym ((effSubcarrierInd cfg).getD e 0)

/-! ### Derived helpers used by the theorems -/

/-- The subcarrier index of the `e`-th effective subcarrier, in closed form:
`guard_left + e`, shifted once past the nulled DC position. -/
def effGetFun (cfg : RGConfig) (e : Nat) : Nat :=
  cfg.guardLeft + e +
    (if cfg.dcNull ∧ dcInd cfg - cfg.guardLeft ≤ e then 1 else 0)

/-- The flattened `(symbol, subcarrier)` positions of one `(tx, stream)`
pair whose mask bit is `False`, in ascending order: the canonical data
ordering of the mapper and the demapper. -/
def zerosFlat (m : MaskT) (t s : Nat) : List Nat :=
  (List.range (m.numSym * m.numSc)).filter fun j => m.val t s (j / m.numSc) (j % m.numSc) = false

/-- The data subcarriers of one type-grid row, in ascending order. -/
def rowData (cfg : RGConfig) (m : MaskT) (t s sym : Nat) : List Nat :=
  (List.range cfg.fftSize).filter fun sc => typeAt cfg m t s sym sc == 0

/-- The mask positions of one row whose bit is `False`, in ascending order. -/
def rowZeros (m : MaskT) (t s sym : Nat) : List Nat :=
  (List.range m.numSc).filter fun e => m.val t s sym e = false

/-- The support of the Kronecker pilot sequence of stream `(t, s)` within
pilot symbol block `symIdx`: the subcarrier offsets `k` whose pilot value is
nonzero. -/
def kroneckerSupport {α : Type} [Zero α] [DecidableEq α] (cfg : RGConfig) (P : List Nat)
    (q : Nat → Nat → Nat → Nat → α) (t s symIdx : Nat) : List Nat :=
  (List.range (numEffectiveSubcarriers cfg).toNat).filter fun k =>
    (kroneckerPilots cfg P q).val t s (symIdx * (numEffectiveSubcarriers cfg).toNat + k) ≠ 0

/-- The positions of one `(tx, stream)` pair in the data index list: its
pilot/data rows assembled in row-major `(symbol, subcarrier)` order. -/
def pairData (cfg : RGConfig) (m : MaskT) (t s : Nat) : List (Nat × Nat × Nat × Nat) :=
  (List.range cfg.numOfdmSymbols).flatMap fun sym =>
    (rowData cfg m t s sym).map fun sc => (t, s, sym, sc)

/-- The geometric compatibility conditions between a grid configuration and
the mask of its pilot pattern under which the mapper/demapper index algebra
is exact: the mask dimensions match the grid, the subcarrier axis splits
exactly into guards, mask and DC, and the DC split index
`dc_ind - left_guards` lies within the mask row (the spec flags
configurations violating the last two bounds as pathological). -/
structure ValidGeometry (cfg : RGConfig) (m : MaskT) : Prop where
  tx_eq : m.numTx = cfg.numTx
  streams_eq : m.numStreams = cfg.numStreamsPerTx
  sym_eq : m.numSym = cfg.numOfdmSymbols
  fft_eq : cfg.guardLeft + m.numSc + dcBit cfg + cfg.guardRight = cfg.fftSize
  guard_le_dc : cfg.guardLeft ≤ dcInd cfg
  dc_le : dcInd cfg ≤ cfg.guardLeft + m.numSc

/-! ### Concrete instances used by counterexamples and witnesses -/

/-- A constant stand-in for the out-of-scope QPSK symbol source. -/
def qOne : Nat → Nat → Nat → Nat → Int := fun _ _ _ _ => 1

/-- The concrete scenario of claim C2: `num_ofdm_symbols=14, fft_size=64,
num_tx=2, num_streams_per_tx=1, num_guard_carriers=(2,3), dc_null=True`. -/
def cfgC2 : RGConfig := ⟨14, 64, 1, 2, 1, 0, 2, 3, true⟩

/-- A valid grid with `num_effective_subcarriers = 3` and
`num_tx * num_streams_per_tx = 2`, for claim C3. -/
def cfgC3 : RGConfig := ⟨2, 3, 1, 2, 1, 0, 0, 0, false⟩

/-- A successfully constructible grid whose DC split index
`dc_ind - num_guard_carriers[0] = 4 - 5` is negative: `fft_size=9`,
`num_guard_carriers=(5,0)`, `dc_null=True`, so
`num_effective_subcarriers = 3`. -/
def cfgC5 : RGConfig := ⟨1, 9, 1, 1, 1, 0, 5, 0, true⟩

/-- The (empty) pilot mask of the pattern for `cfgC5`. -/
def maskC5 : MaskT := ⟨1, 1, 1, 3, fun _ _ _ _ => false⟩

/-- The (empty) pilot tensor of the pattern for `cfgC5`. -/
def pilC5 : PilotsT Int := ⟨1, 1, 0, fun _ _ _ => 0⟩

/-- An otherwise fully valid configuration whose `subcarrier_spacing` is 0,
for claim C7. -/
def cfgC7 : RGConfig := ⟨1, 4, 0, 1, 1, 0, 0, 0, false⟩

/-- A configuration with `left + right + dc_null == fft_size`, i.e. zero
effective subcarriers, for claim C10. -/
def cfgC10 : RGConfig := ⟨1, 1, 1, 1, 1, 0, 0, 0, true⟩

/-- An explicitly supplied pilot mask with zero effective subcarriers. -/
def maskC10 : MaskT := ⟨1, 1, 1, 0, fun _ _ _ _ => false⟩

/-- An explicitly supplied empty pilot tensor matching `maskC10`. -/
def pilC10 : PilotsT Int := ⟨1, 1, 0, fun _ _ _ => 0⟩

/-- A valid one-pilot pattern mask (one transmitter, one stream, one symbol,
two effective subcarriers, pilot on subcarrier 0), for claims C4 and C9. -/
def maskOnePilot : MaskT := ⟨1, 1, 1, 2, fun _ _ _ e => e == 0⟩

/-- A pilot tensor matching `maskOnePilot`. -/
def pilOnePilot : PilotsT Int := ⟨1, 1, 1, fun _ _ _ => 5⟩

/-- A mask whose two transmitters have different pilot counts (1 and 0),
for claim C4. -/
def maskUneven : MaskT := ⟨2, 1, 1, 1, fun t _ _ _ => t == 0⟩

/-- A pilot tensor with the leading dimensions of `maskUneven`. -/
def pilUneven : PilotsT Int := ⟨2, 1, 1, fun _ _ _ => 1⟩

/-- A replacement pilot tensor whose leading dimensions `[2, 2]` do not
match `maskOnePilot`'s `[1, 1]`, for claim C9. -/
def pilMismatched : PilotsT Int := ⟨2, 2, 3, fun _ _ _ => 7⟩

/-- The small valid grid used by the C1 witness: 2 OFDM symbols,
`fft_size=4`, guards `(1,0)`, nulled DC, 2 effective subcarriers. -/
def cfgW1 : RGConfig := ⟨2, 4, 1, 1, 1, 0, 1, 0, true⟩

/-- The witness pilot mask for `cfgW1`: one pilot, at symbol 0 subcarrier 0. -/
def maskW1 : MaskT := ⟨1, 1, 2, 2, fun _ _ sym e => sym == 0 && e == 0⟩

/-- The witness pilot tensor for `cfgW1`. -/
def pilW1 : PilotsT Int := ⟨1, 1, 1, fun _ _ _ => 9⟩

/-- The witness data tensor: `x b t s k = k + 1`. -/
def xData : Nat → Nat → Nat → Nat → Int := fun _ _ _ k => (k : Int) + 1

/-- The witness Kronecker grid for claim C6: `num_tx=2`,
`num_streams_per_tx=1`, `fft_size=4`, no guards, no DC null. -/
def cfgC6 : RGConfig := ⟨1, 4, 1, 2, 1, 0, 0, 0, false⟩

/-- A concrete normalized pilot pattern over `ℂ` for the C8 witness. -/
def ppC8 : PilotPatternT ℂ := ⟨⟨1, 1, 1, 1, fun _ _ _ _ => true⟩, ⟨1, 1, 1, fun _ _ _ => 1⟩, true⟩

/-! ## Helper lemmas about pilot counts and `_check_settings` -/

theorem mem_maskCounts (m : MaskT) {t s : Nat} (ht : t < m.numTx) (hs : s < m.numStreams) :
    maskCount m t s ∈ maskCounts m := by
  unfold maskCounts
  exact List.mem_flatMap.2 ⟨t, List.mem_range.2 ht,
    List.mem_map.2 ⟨s, List.mem_range.2 hs, rfl⟩⟩

theorem maskCounts_mem_inv {m : MaskT} {a : Nat} (h : a ∈ maskCounts m) :
    ∃ t s, t < m.numTx ∧ s < m.numStreams ∧ a = maskCount m t s := by
  unfold maskCounts at h
  obtain ⟨t, ht, h⟩ := List.mem_flatMap.1 h
  obtain ⟨s, hs, rfl⟩ := List.mem_map.1 h
  exact ⟨t, s, List.mem_range.1 ht, List.mem_range.1 hs, rfl⟩

theorem checkSettings_of_all_eq {α : Type} (m : MaskT) (p : PilotsT α)
    (hT : m.numTx = p.numTx) (hS : m.numStreams = p.numStreams)
    (hT0 : 0 < m.numTx) (hS0 : 0 < m.numStreams)
    (hall : ∀ t < m.numTx, ∀ s < m.numStreams, maskCount m t s = p.numPilots) :
    checkSettings m p = true := by
  have hmem : p.numPilots ∈ maskCounts m := by
    have h := mem_maskCounts m hT0 hS0
    rwa [hall 0 hT0 0 hS0] at h
  have hb : ∀ b ∈ maskCounts m, b = p.numPilots := by
    intro b hbm
    obtain ⟨t, s, ht, hs, rfl⟩ := maskCounts_mem_inv hbm
    exact hall t ht s hs
  have hmin : (maskCounts m).min? = some p.numPilots :=
    List.min?_eq_some_iff'.2 ⟨hmem, fun b h => (hb b h).ge⟩
  have hmax : (maskCounts m).max? = some p.numPilots :=
    List.max?_eq_some_iff'.2 ⟨hmem, fun b h => (hb b h).le⟩
  simp [checkSettings, hmin, hmax, hT, hS]

theorem maskCount_of_val_false {m : MaskT} {t s : Nat}
    (h : ∀ y e, y < m.numSym → e < m.numSc → m.val t s y e = false) :
    maskCount m t s = 0 := by
  refine List.sum_eq_zero ?_
  intro x hx
  obtain ⟨y, hy, hx⟩ := List.mem_flatMap.1 hx
  obtain ⟨e, he, rfl⟩ := List.mem_map.1 hx
  rw [h y e (List.mem_range.1 hy) (List.mem_range.1 he)]
  rfl

theorem checkSettings_empty (α : Type) [Zero α] (cfg : RGConfig)
    (hT : 0 < cfg.numTx) (hS : 0 < cfg.numStreamsPerTx) :
    checkSettings (emptyMask cfg) (emptyPilots α cfg) = true :=
  checkSettings_of_all_eq _ _ rfl rfl hT hS
    (fun _ _ _ _ => maskCount_of_val_false (fun _ _ _ _ => rfl))

theorem emptyPatternConstruct_isOk_false {α : Type} [Zero α] {cfg : RGConfig}
    (hE : numEffectiveSubcarriers cfg ≤ 0) :
    (emptyPatternConstruct α cfg).isOk = false := by
  unfold emptyPatternConstruct
  by_cases h1 : cfg.numTx = 0
  · rw [if_pos h1]; rfl
  · rw [if_neg h1]
    by_cases h2 : cfg.numStreamsPerTx = 0
    · rw [if_pos h2]; rfl
    · rw [if_neg h2]
      by_cases h3 : cfg.numOfdmSymbols = 0
      · rw [if_pos h3]; rfl
      · rw [if_neg h3, if_pos hE]; rfl

theorem rgConstructOk_auto (α : Type) [Zero α] (cfg : RGConfig)
    (q : Nat → Nat → Nat → Nat → α) :
    rgConstructOk cfg PilotPolicy.auto q
      = ((emptyPatternConstruct α cfg).isOk && rgCheckSettings cfg) := by
  simp only [rgConstructOk, rgConstruct]
  cases hemp : emptyPatternConstruct α cfg with
  | error e => rfl
  | ok pp => cases rgCheckSettings cfg <;> rfl

theorem emptyPatternConstruct_ok {α : Type} [Zero α] {cfg : RGConfig}
    (h1 : 0 < cfg.numTx) (h2 : 0 < cfg.numStreamsPerTx) (h3 : 0 < cfg.numOfdmSymbols)
    (h4 : 0 < numEffectiveSubcarriers cfg) :
    emptyPatternConstruct α cfg = .ok ⟨emptyMask cfg, emptyPilots α cfg, false⟩ := by
  unfold emptyPatternConstruct
  rw [if_neg (by omega), if_neg (by omega), if_neg (by omega), if_neg (by omega)]
  unfold pilotPatternConstruct
  rw [if_pos (checkSettings_empty α cfg h1 h2)]

/-! ## Claim C4 -/

/-- Claim C4: constructing a PilotPattern from a mask in which two
(tx, stream) pairs have differing counts of True entries fails with an
invariant-violation error; constructing one where all pairs have the same
count equal to the last dimension of `pilots` succeeds, given correct ranks
and matching leading dimensions (and at least one transmitter and stream, so
that the reduced min/max counts exist). -/
theorem pilotPattern_count_invariant :
    (∀ (α : Type) (m : MaskT) (p : PilotsT α) (n : Bool) (t1 s1 t2 s2 : Nat),
      t1 < m.numTx → s1 < m.numStreams → t2 < m.numTx → s2 < m.numStreams →
      maskCount m t1 s1 ≠ maskCount m t2 s2 →
      (pilotPatternConstruct m p n).isOk = false)
    ∧ (∀ (α : Type) (m : MaskT) (p : PilotsT α) (n : Bool),
      m.numTx = p.numTx → m.numStreams = p.numStreams →
      0 < m.numTx → 0 < m.numStreams →
      (∀ t < m.numTx, ∀ s < m.numStreams, maskCount m t s = p.numPilots) →
      (pilotPatternConstruct m p n).isOk = true) := by
  constructor
  · intro α m p n t1 s1 t2 s2 ht1 hs1 ht2 hs2 hne
    have hfalse : checkSettings m p = false := by
      rcases Bool.eq_false_or_eq_true (checkSettings m p) with h | h
      swap
      · exact h
      · exfalso
        simp only [checkSettings, Bool.and_eq_true, beq_iff_eq] at h
        obtain ⟨⟨-, hmm⟩, -⟩ := h
        have hm1 : (maskCounts m).min?.getD 0 ≤ maskCount m t1 s1 :=
          List.min?_getD_le_of_mem (mem_maskCounts m ht1 hs1)
        have hM1 : maskCount m t1 s1 ≤ (maskCounts m).max?.getD 0 :=
          List.le_max?_getD_of_mem (mem_maskCounts m ht1 hs1)
        have hm2 : (maskCounts m).min?.getD 0 ≤ maskCount m t2 s2 :=
          List.min?_getD_le_of_mem (mem_maskCounts m ht2 hs2)
        have hM2 : maskCount m t2 s2 ≤ (maskCounts m).max?.getD 0 :=
          List.le_max?_getD_of_mem (mem_maskCounts m ht2 hs2)
        omega
    rw [pilotPatternConstruct, if_neg (by simp [hfalse])]
    rfl
  · intro α m p n hT hS hT0 hS0 hall
    rw [pilotPatternConstruct, if_pos (by simp [checkSettings_of_all_eq m p hT hS hT0 hS0 hall])]
    rfl

/-- Claim C4 witness: a mask whose two transmitters carry 1 and 0 pilots is
rejected; a single-stream mask with one pilot and a matching length-1 pilot
tensor is accepted. -/
theorem pilotPattern_count_invariant_witness :
    (pilotPatternConstruct maskUneven pilUneven false).isOk = false
    ∧ (pilotPatternConstruct maskOnePilot pilOnePilot false).isOk = true := by
  constructor
  · exact pilotPattern_count_invariant.1 Int maskUneven pilUneven false 0 0 1 0
      (by decide) (by decide) (by decide) (by decide) (by decide)
  · exact pilotPattern_count_invariant.2 Int maskOnePilot pilOnePilot false rfl rfl
      (by decide) (by decide) (by decide)

/-! ## Claim C9 -/

/-- Claim C9 (amended): the pilots setter performs no validation: any
assignment succeeds and replaces the stored pilot values while keeping the
mask and the normalize flag, even when Invariant B is violated; Invariant B
is only validated by the constructor, whose success implies that the leading
dimensions of mask and pilots agree. -/
theorem pilots_setter_no_revalidation :
    (∀ (α : Type) (pp : PilotPatternT α) (v : PilotsT α),
      setPilots pp v = ⟨pp.mask, v, pp.normalize⟩)
    ∧ (∀ (α : Type) (m : MaskT) (p : PilotsT α) (n : Bool) (pp : PilotPatternT α),
      pilotPatternConstruct m p n = .ok pp →
      m.numTx = p.numTx ∧ m.numStreams = p.numStreams) := by
  constructor
  · intro α pp v
    rfl
  · intro α m p n pp h
    have hcs : checkSettings m p = true := by
      rcases Bool.eq_false_or_eq_true (checkSettings m p) with hc | hc
      · exact hc
      · rw [pilotPatternConstruct, if_neg (by simp [hc])] at h
        exact absurd h (by simp)
    simp only [checkSettings, Bool.and_eq_true, beq_iff_eq] at hcs
    exact hcs.1.1

/-- Claim C9 counterexample: assigning a pilots tensor with leading
dimensions `[2, 2]` to a pattern whose mask has leading dimensions `[1, 1]`
does not fail; it replaces the stored pilots although Invariant B is
violated for the new value. -/
theorem pilots_setter_counterexample :
    (pilotPatternConstruct maskOnePilot pilOnePilot true).isOk = true
    ∧ (setPilots ⟨maskOnePilot, pilOnePilot, true⟩ pilMismatched).pilots = pilMismatched
    ∧ pilMismatched.numTx ≠ maskOnePilot.numTx
    ∧ checkSettings maskOnePilot pilMismatched = false := by
  exact ⟨by decide, rfl, by decide, by decide⟩

/-- Claim C9 witness: the setter replaces stored pilots unconditionally on a
concrete pattern, and the constructor's success on that pattern certifies
Invariant B for the stored pair. -/
theorem pilots_setter_no_revalidation_witness :
    setPilots ⟨maskOnePilot, pilOnePilot, false⟩ pilMismatched
        = ⟨maskOnePilot, pilMismatched, false⟩
    ∧ (maskOnePilot.numTx = pilOnePilot.numTx
        ∧ maskOnePilot.numStreams = pilOnePilot.numStreams) := by
  constructor
  · exact pilots_setter_no_revalidation.1 Int ⟨maskOnePilot, pilOnePilot, false⟩ pilMismatched
  · exact pilots_setter_no_revalidation.2 Int maskOnePilot pilOnePilot false
      ⟨maskOnePilot, pilOnePilot, false⟩ rfl

/-! ## Claim C7 -/

/-- Claim C7 (amended): `ResourceGrid` construction eagerly validates the
geometry constraints on symbol count, FFT size, cyclic prefix, transmitter
and stream counts and guard carriers, but it never inspects
`subcarrier_spacing`: for every configuration whose other attributes are
valid (with at least one effective subcarrier for the default pilot
pattern), construction succeeds even when `subcarrier_spacing <= 0`. -/
theorem rg_construct_ignores_subcarrier_spacing
    (α : Type) [Zero α] (cfg : RGConfig) (q : Nat → Nat → Nat → Nat → α)
    (hspace : cfg.subcarrierSpacing ≤ 0)
    (h1 : 0 < cfg.numOfdmSymbols) (h2 : 0 < cfg.fftSize)
    (h3 : cfg.cyclicPrefixLength ≤ cfg.fftSize)
    (h4 : 0 < cfg.numTx) (h5 : 0 < cfg.numStreamsPerTx)
    (h6 : 0 < numEffectiveSubcarriers cfg) :
    rgConstructOk cfg PilotPolicy.auto q = true := by
  have hguard : (cfg.guardLeft + cfg.guardRight : Int) ≤ (cfg.fftSize : Int) - dcBit cfg := by
    unfold numEffectiveSubcarriers at h6
    omega
  have hcheck : rgCheckSettings cfg = true := by
    simp only [rgCheckSettings, Bool.and_eq_true, decide_eq_true_eq]
    exact ⟨⟨⟨⟨⟨h1, h2⟩, h3⟩, h4⟩, h5⟩, hguard⟩
  rw [rgConstructOk_auto, emptyPatternConstruct_ok h4 h5 h1 h6, hcheck]
  rfl

/-- Claim C7 counterexample: a concrete configuration with
`subcarrier_spacing = 0` and all other attributes valid is accepted by
`ResourceGrid` construction. -/
theorem rg_construct_zero_spacing_counterexample :
    cfgC7.subcarrierSpacing ≤ 0
    ∧ rgConstructOk cfgC7 PilotPolicy.auto qOne = true := by
  exact ⟨by decide, by decide⟩

/-- Claim C7 witness: the amended theorem applied to the concrete
zero-spacing configuration. -/
theorem rg_construct_ignores_subcarrier_spacing_witness :
    rgConstructOk cfgC7 PilotPolicy.empty qOne = true
    ∨ rgConstructOk cfgC7 PilotPolicy.auto qOne = true := by
  refine Or.inr (rg_construct_ignores_subcarrier_spacing Int cfgC7 qOne
    (by decide) (by decide) (by decide) (by decide) (by decide) (by decide) (by decide))

/-! ## Claim C10 -/

/-- Claim C10 (amended): every `ResourceGrid` constructed with the default
(empty) pilot pattern has at least one effective subcarrier, and a
configuration with `left + right + dc_null == fft_size` always fails under
the default pattern; however the bound does not extend to grids constructed
from an explicitly supplied `PilotPattern`, which undergo no
cross-validation. -/
theorem rg_default_effective_subcarriers_positive :
    (∀ (α : Type) [Zero α] (cfg : RGConfig) (q : Nat → Nat → Nat → Nat → α),
      rgConstructOk cfg PilotPolicy.auto q = true → 1 ≤ numEffectiveSubcarriers cfg)
    ∧ (∀ (α : Type) [Zero α] (cfg : RGConfig) (q : Nat → Nat → Nat → Nat → α),
      cfg.guardLeft + cfg.guardRight + dcBit cfg = cfg.fftSize →
      rgConstructOk cfg PilotPolicy.auto q = false) := by
  constructor
  · intro α _ cfg q h
    by_contra hE
    have hE' : numEffectiveSubcarriers cfg ≤ 0 := by omega
    have hkill := @emptyPatternConstruct_isOk_false α _ cfg hE'
    rw [rgConstructOk_auto, hkill] at h
    exact absurd h (by simp)
  · intro α _ cfg q hfull
    have hE' : numEffectiveSubcarriers cfg ≤ 0 := by
      unfold numEffectiveSubcarriers
      omega
    have hkill := @emptyPatternConstruct_isOk_false α _ cfg hE'
    rw [rgConstructOk_auto, hkill]
    rfl

/-- Claim C10 counterexample: a `ResourceGrid` with zero effective
subcarriers is successfully constructed when a degenerate but valid
`PilotPattern` is supplied explicitly, because the pilot-pattern setter
accepts any `PilotPattern` instance without cross-validation. -/
theorem rg_zero_effective_subcarriers_counterexample :
    pilotPatternConstruct maskC10 pilC10 false = .ok ⟨maskC10, pilC10, false⟩
    ∧ rgConstructOk cfgC10 (PilotPolicy.supplied ⟨maskC10, pilC10, false⟩) qOne = true
    ∧ numEffectiveSubcarriers cfgC10 = 0 := by
  exact ⟨rfl, by decide, by decide⟩

/-- Claim C10 witness: the amended theorem applied to the concrete boundary
configuration and to a small valid grid. -/
theorem rg_default_effective_subcarriers_positive_witness :
    1 ≤ numEffectiveSubcarriers cfgW1
    ∧ rgConstructOk cfgC10 PilotPolicy.auto qOne = false := by
  constructor
  · exact rg_default_effective_subcarriers_positive.1 Int cfgW1 qOne (by decide)
  · exact rg_default_effective_subcarriers_positive.2 Int cfgC10 qOne (by decide)

/-! ## Helper lemmas about the Kronecker allocator -/

theorem sum_flatMap_nat {β : Type} (l : List β) (f : β → List Nat) :
    (l.flatMap f).sum = (l.map fun a => (f a).sum).sum := by
  induction l with
  | nil => rfl
  | cons a l ih => simp [List.flatMap_cons, List.sum_append, ih]

theorem sum_map_ite_const {l : List Nat} {p : Nat → Bool} {c : Nat} :
    (l.map fun a => if p a then c else 0).sum = l.countP p * c := by
  induction l with
  | nil => simp
  | cons a l ih =>
    simp only [List.map_cons, List.sum_cons, List.countP_cons, ih]
    cases hpa : p a
    · simp
    · simp [Nat.add_mul]
      omega

theorem maskCount_kronecker (cfg : RGConfig) (P : List Nat) (t s : Nat) :
    maskCount (kroneckerMask cfg P) t s
      = ((List.range cfg.numOfdmSymbols).countP fun sym => P.contains sym)
          * (numEffectiveSubcarriers cfg).toNat := by
  unfold maskCount kroneckerMask
  rw [sum_flatMap_nat]
  have h1 : ∀ y : Nat, ((List.range (numEffectiveSubcarriers cfg).toNat).map
      fun _ => if P.contains y then (1 : Nat) else 0).sum
      = if P.contains y then (numEffectiveSubcarriers cfg).toNat else 0 := by
    intro y
    cases hc : P.contains y <;>
      simp [hc, List.map_const', List.sum_replicate]
  simp only [h1]
  exact sum_map_ite_const

theorem countP_contains_range {P : List Nat} {n : Nat} (hnodup : P.Nodup)
    (hlt : ∀ p ∈ P, p < n) :
    ((List.range n).countP fun sym => P.contains sym) = P.length := by
  rw [List.countP_eq_length_filter]
  have hnd1 : ((List.range n).filter (fun sym => P.contains sym)).Nodup :=
    List.Nodup.filter _ (List.nodup_range n)
  have hperm : List.Perm ((List.range n).filter (fun sym => P.contains sym)) P := by
    refine (List.perm_ext_iff_of_nodup hnd1 hnodup).2 ?_
    intro a
    simp only [List.mem_filter, List.mem_range, List.elem_eq_mem, decide_eq_true_eq]
    constructor
    · rintro ⟨-, h⟩
      exact h
    · intro h
      exact ⟨hlt a h, h⟩
  exact hperm.length_eq

theorem linear_index_inj {S t s t' s' : Nat} (hs : s < S) (hs' : s' < S)
    (h : t * S + s = t' * S + s') : t = t' ∧ s = s' := by
  rcases Nat.lt_trichotomy t t' with hlt | heq | hgt
  · exfalso
    have h1 : (t + 1) * S ≤ t' * S := Nat.mul_le_mul_right _ (by omega)
    have h2 : t * S + S = (t + 1) * S := by ring
    omega
  · subst heq
    omega
  · exfalso
    have h1 : (t' + 1) * S ≤ t * S := Nat.mul_le_mul_right _ (by omega)
    have h2 : t' * S + S = (t' + 1) * S := by ring
    omega

/-! ## Claim C3 -/

/-- Claim C3 (amended): for a constructed grid (so that
`num_effective_subcarriers >= 0` and there is at least one stream) and a
nonempty list of distinct, in-range pilot symbol indices,
`KroneckerPilotPattern` construction succeeds if and only if
`num_effective_subcarriers` is a multiple of `num_tx * num_streams_per_tx`;
the divisibility is on the effective subcarrier count alone, not on the
total pilot count `len(P) * num_effective_subcarriers`. -/
theorem kronecker_divisibility_iff
    (α : Type) [Zero α] (cfg : RGConfig) (P : List Nat)
    (q : Nat → Nat → Nat → Nat → α)
    (hS : 0 < cfg.numTx * cfg.numStreamsPerTx) (hP : P ≠ [])
    (hnodup : P.Nodup) (hlt : ∀ p ∈ P, p < cfg.numOfdmSymbols)
    (hE : 0 ≤ numEffectiveSubcarriers cfg) :
    (kroneckerConstruct cfg P q).isOk = true
      ↔ numEffectiveSubcarriers cfg % (cfg.numTx * cfg.numStreamsPerTx : Int) = 0 := by
  have hT0 : 0 < cfg.numTx := by
    rcases Nat.eq_zero_or_pos cfg.numTx with h | h
    · rw [h] at hS
      simp at hS
    · exact h
  have hS0 : 0 < cfg.numStreamsPerTx := by
    rcases Nat.eq_zero_or_pos cfg.numStreamsPerTx with h | h
    · rw [h] at hS
      simp at hS
    · exact h
  rw [kroneckerConstruct, if_neg (by omega), if_neg (by simpa using hP)]
  by_cases hdvd : numEffectiveSubcarriers cfg % (cfg.numTx * cfg.numStreamsPerTx : Int) = 0
  · rw [if_neg (by simp [hdvd]), if_neg (by omega),
      if_neg (by simp [List.all_eq_true]; exact fun p hp => hlt p hp)]
    have hcs : checkSettings (kroneckerMask cfg P) (kroneckerPilots cfg P q) = true := by
      refine checkSettings_of_all_eq _ _ rfl rfl hT0 hS0 ?_
      intro t ht s hs
      rw [maskCount_kronecker, countP_contains_range hnodup hlt]
      rfl
    rw [pilotPatternConstruct, if_pos (by simp [hcs])]
    exact iff_of_true rfl hdvd
  · rw [if_pos (by simpa using hdvd)]
    exact iff_of_false (by simp [Except.isOk, Except.toBool]) hdvd

/-- Claim C3 counterexample: on the valid grid `cfgC3`
(`num_effective_subcarriers = 3`, two streams) with two pilot symbols, the
total pilot count `2 * 3 = 6` is divisible by the number of streams `2`,
yet `KroneckerPilotPattern` construction fails, because the code checks
divisibility of the effective subcarrier count, not of the total. -/
theorem kronecker_divisibility_counterexample :
    rgConstructOk cfgC3 PilotPolicy.auto qOne = true
    ∧ ((([0, 1] : List Nat).length : Int) * numEffectiveSubcarriers cfgC3)
        % (cfgC3.numTx * cfgC3.numStreamsPerTx : Int) = 0
    ∧ (kroneckerConstruct cfgC3 [0, 1] qOne).isOk = false := by
  exact ⟨by decide, by decide, by decide⟩

/-- Claim C3 witness: the amended equivalence applied to the concrete C2
scenario grid, whose 58 effective subcarriers are divisible by its 2
streams. -/
theorem kronecker_divisibility_iff_witness :
    (kroneckerConstruct cfgC2 [2, 11] qOne).isOk = true := by
  exact (kronecker_divisibility_iff Int cfgC2 [2, 11] qOne (by decide) (by decide)
    (by decide) (by decide) (by decide)).2 (by decide)

/-! ## Claim C2 -/

/-- Claim C2 (amended): for the concrete scenario
(`num_ofdm_symbols=14, fft_size=64, num_tx=2, num_streams_per_tx=1,
num_guard_carriers=(2,3), dc_null=True, pilot_ofdm_symbol_indices=[2,11]`)
the grid has `num_effective_subcarriers = 58`, but the per-stream
`num_pilot_symbols` is `2 * 58 = 116` (the Kronecker pilot tensor covers
every effective subcarrier of every pilot-bearing symbol, with zeros on the
comb positions of the other stream), and `num_data_symbols` is
`14 * 58 - 116 = 696`. -/
theorem kronecker_concrete_scenario :
    numEffectiveSubcarriers cfgC2 = 58
    ∧ (kroneckerConstruct cfgC2 [2, 11] qOne).toOption.map
        (fun pp => pp.pilots.numPilots) = some 116
    ∧ (kroneckerConstruct cfgC2 [2, 11] qOne).toOption.map
        (fun pp => ppNumDataSymbols pp.mask pp.pilots.numPilots) = some 696 := by
  exact ⟨by decide, by decide, by decide⟩

/-- Claim C2 counterexample: in the concrete scenario the per-stream pilot
count is not 58 and the data symbol count is not 754. -/
theorem kronecker_concrete_scenario_counterexample :
    ¬ ((kroneckerConstruct cfgC2 [2, 11] qOne).toOption.map
        (fun pp => pp.pilots.numPilots) = some 58
      ∧ (kroneckerConstruct cfgC2 [2, 11] qOne).toOption.map
        (fun pp => ppNumDataSymbols pp.mask pp.pilots.numPilots) = some 754) := by
  intro h
  exact absurd h.1 (by decide)

/-! ## Claim C6 -/

/-- Claim C6: in a Kronecker pilot pattern with `S = num_tx *
num_streams_per_tx` streams, within any pilot symbol block the subcarrier
offsets carrying nonzero pilot values for the stream with linear index
`i = t*num_streams_per_tx + s` are exactly the comb `{k | k % S = i}`;
the supports of two distinct streams are disjoint, and the combs of all
streams cover all `num_effective_subcarriers` offsets. -/
theorem kronecker_comb_nonoverlap
    (α : Type) [Zero α] [DecidableEq α] (cfg : RGConfig) (P : List Nat)
    (q : Nat → Nat → Nat → Nat → α)
    (hq : ∀ a b c d, q a b c d ≠ 0)
    (hT0 : 0 < cfg.numTx) (hS0 : 0 < cfg.numStreamsPerTx) (symIdx : Nat) :
    (∀ t s, t < cfg.numTx → s < cfg.numStreamsPerTx →
      ∀ k, k ∈ kroneckerSupport cfg P q t s symIdx
        ↔ (k < (numEffectiveSubcarriers cfg).toNat
            ∧ k % (cfg.numTx * cfg.numStreamsPerTx) = t * cfg.numStreamsPerTx + s))
    ∧ (∀ t s t' s', t < cfg.numTx → s < cfg.numStreamsPerTx →
        t' < cfg.numTx → s' < cfg.numStreamsPerTx → (t, s) ≠ (t', s') →
        ∀ k, k ∈ kroneckerSupport cfg P q t s symIdx →
          k ∉ kroneckerSupport cfg P q t' s' symIdx)
    ∧ (∀ k, k < (numEffectiveSubcarriers cfg).toNat →
        ∃ t s, t < cfg.numTx ∧ s < cfg.numStreamsPerTx
          ∧ k ∈ kroneckerSupport cfg P q t s symIdx) := by
  have hchar : ∀ t s, ∀ k, k ∈ kroneckerSupport cfg P q t s symIdx
      ↔ (k < (numEffectiveSubcarriers cfg).toNat
          ∧ k % (cfg.numTx * cfg.numStreamsPerTx) = t * cfg.numStreamsPerTx + s) := by
    intro t s k
    unfold kroneckerSupport kroneckerPilots
    simp only [List.mem_filter, List.mem_range, decide_eq_true_eq]
    constructor
    · rintro ⟨hk, hval⟩
      refine ⟨hk, ?_⟩
      by_contra hcond
      rw [Nat.add_comm, Nat.add_mul_mod_self_right, Nat.mod_eq_of_lt hk] at hval
      rw [if_neg hcond] at hval
      exact hval rfl
    · rintro ⟨hk, hcond⟩
      refine ⟨hk, ?_⟩
      rw [Nat.add_comm, Nat.add_mul_mod_self_right, Nat.mod_eq_of_lt hk, if_pos hcond]
      exact hq t s _ _
  refine ⟨fun t s _ _ k => hchar t s k, ?_, ?_⟩
  · intro t s t' s' ht hs ht' hs' hne k hk hk'
    rw [hchar t s k] at hk
    rw [hchar t' s' k] at hk'
    have heq : t * cfg.numStreamsPerTx + s = t' * cfg.numStreamsPerTx + s' := by
      rw [← hk.2, ← hk'.2]
    obtain ⟨het, hes⟩ := linear_index_inj hs hs' heq
    exact hne (by rw [het, hes])
  · intro k hk
    have hSpos : 0 < cfg.numTx * cfg.numStreamsPerTx := Nat.mul_pos hT0 hS0
    set i := k % (cfg.numTx * cfg.numStreamsPerTx) with hi
    have hiS : i < cfg.numTx * cfg.numStreamsPerTx := Nat.mod_lt _ hSpos
    refine ⟨i / cfg.numStreamsPerTx, i % cfg.numStreamsPerTx, ?_, Nat.mod_lt _ hS0, ?_⟩
    · exact (Nat.div_lt_iff_lt_mul hS0).2 (by omega)
    · rw [hchar]
      refine ⟨hk, ?_⟩
      rw [← hi, Nat.mul_comm (i / cfg.numStreamsPerTx) cfg.numStreamsPerTx]
      exact (Nat.div_add_mod i cfg.numStreamsPerTx).symm

/-- Claim C6 witness: on a concrete two-stream Kronecker grid with four
effective subcarriers, offset 1 belongs to the support of stream (1,0),
not to the support of stream (0,0), and offset 0 belongs to stream (0,0). -/
theorem kronecker_comb_nonoverlap_witness :
    1 ∈ kroneckerSupport cfgC6 [0] qOne 1 0 0
    ∧ 1 ∉ kroneckerSupport cfgC6 [0] qOne 0 0 0
    ∧ 0 ∈ kroneckerSupport cfgC6 [0] qOne 0 0 0 := by
  have h := kronecker_comb_nonoverlap Int cfgC6 [0] qOne
    (fun _ _ _ _ => one_ne_zero) (by decide) (by decide) 0
  have hmem1 : 1 ∈ kroneckerSupport cfgC6 [0] qOne 1 0 0 :=
    (h.1 1 0 (by decide) (by decide) 1).2 ⟨by decide, by decide⟩
  refine ⟨hmem1, ?_, (h.1 0 0 (by decide) (by decide) 0).2 ⟨by decide, by decide⟩⟩
  exact h.2.1 1 0 0 0 (by decide) (by decide) (by decide) (by decide) (by decide) 1 hmem1

/-! ## Helper lemmas about the type grid -/

theorem dcInd_eq (cfg : RGConfig) : dcInd cfg = cfg.fftSize / 2 := by
  unfold dcInd
  rcases Nat.even_or_odd cfg.fftSize with he | ho
  · have h0 : cfg.fftSize % 2 = 0 := Nat.even_iff.1 he
    rw [if_neg (by omega)]
    omega
  · have h1 : cfg.fftSize % 2 = 1 := Nat.odd_iff.1 ho
    rw [if_pos h1]
    omega

theorem pyTake_append_pyDrop {α : Type} (i : Int) (l : List α) :
    pyTake i l ++ pyDrop i l = l := by
  unfold pyTake pyDrop
  by_cases h : 0 ≤ i
  · rw [if_pos h, if_pos h]
    exact List.take_append_drop _ l
  · rw [if_neg h, if_neg h]
    exact List.take_append_drop _ l

theorem maskRow_length (m : MaskT) (t s sym : Nat) :
    (maskRow m t s sym).length = m.numSc := by
  unfold maskRow
  simp

theorem pyTake_pyDrop_length {α : Type} (i : Int) (l : List α) :
    (pyTake i l).length + (pyDrop i l).length = l.length := by
  have h := congrArg List.length (pyTake_append_pyDrop i l)
  rwa [List.length_append] at h

theorem typeRow_length (cfg : RGConfig) (m : MaskT) (t s sym : Nat) :
    (typeRow cfg m t s sym).length
      = cfg.guardLeft + m.numSc + dcBit cfg + cfg.guardRight := by
  unfold typeRow
  have h := pyTake_pyDrop_length (splitInd cfg) (maskRow m t s sym)
  rw [maskRow_length] at h
  simp only [List.length_append, List.length_replicate]
  cases hdc : cfg.dcNull <;> simp only [hdc, dcBit, if_pos, if_neg] <;> simp <;> omega

theorem mem_pyTake {α : Type} {i : Int} {l : List α} {a : α} (h : a ∈ pyTake i l) :
    a ∈ l := by
  unfold pyTake at h
  split at h <;> exact List.mem_of_mem_take h

theorem mem_pyDrop {α : Type} {i : Int} {l : List α} {a : α} (h : a ∈ pyDrop i l) :
    a ∈ l := by
  unfold pyDrop at h
  split at h <;> exact List.mem_of_mem_drop h

theorem typeRow_mem (cfg : RGConfig) (m : MaskT) (t s sym : Nat) :
    ∀ c ∈ typeRow cfg m t s sym, c = 0 ∨ c = 1 ∨ c = 2 ∨ c = 3 := by
  intro c hc
  unfold typeRow at hc
  simp only [List.mem_append] at hc
  have hmask : c ∈ maskRow m t s sym → c = 0 ∨ c = 1 := by
    intro hm
    unfold maskRow at hm
    obtain ⟨e, -, rfl⟩ := List.mem_map.1 hm
    cases m.val t s sym e <;> simp
  rcases hc with ((((hc | hc) | hc) | hc) | hc)
  · right; right; left
    exact List.eq_of_mem_replicate hc
  · rcases hmask (mem_pyTake hc) with h | h
    · left; exact h
    · right; left; exact h
  · split at hc
    · right; right; right
      simpa using hc
    · simp at hc
  · rcases hmask (mem_pyDrop hc) with h | h
    · left; exact h
    · right; left; exact h
  · right; right; left
    exact List.eq_of_mem_replicate hc

theorem count4_of_mem {l : List Nat}
    (h : ∀ c ∈ l, c = 0 ∨ c = 1 ∨ c = 2 ∨ c = 3) :
    l.count 0 + l.count 1 + l.count 2 + l.count 3 = l.length := by
  induction l with
  | nil => rfl
  | cons a l ih =>
    have ha := h a (List.mem_cons_self a l)
    have ih' := ih (fun c hc => h c (List.mem_cons_of_mem a hc))
    rcases ha with rfl | rfl | rfl | rfl <;> simp [List.count_cons] <;> omega

theorem sum4_rows {L : Nat} (rows : List (List Nat))
    (h : ∀ r ∈ rows, r.count 0 + r.count 1 + r.count 2 + r.count 3 = L) :
    (rows.map (fun r => r.count 0)).sum + (rows.map (fun r => r.count 1)).sum
      + (rows.map (fun r => r.count 2)).sum + (rows.map (fun r => r.count 3)).sum
      = L * rows.length := by
  induction rows with
  | nil => simp
  | cons r rows ih =>
    have hr := h r (List.mem_cons_self r rows)
    have ih' := ih (fun r' hr' => h r' (List.mem_cons_of_mem r hr'))
    simp only [List.map_cons, List.sum_cons, List.length_cons, Nat.mul_succ]
    omega

/-! ## Claim C5 -/

/-- Claim C5 (amended): every resource element of `build_type_grid` carries
exactly one type code in 0..3 and the per-row and whole-grid counts of the
four types sum to `fft_size` and `fft_size * num_ofdm_symbols`; the layout
"left guards, mask below the split index, DC block (iff dc_null), remaining
mask, right guards" holds whenever the split index `dc_ind - left_guards`
is nonnegative (a negative split index is spliced with Python
negative-index semantics instead, placing the DC block elsewhere). -/
theorem type_grid_partition (cfg : RGConfig) (m : MaskT) (t s sym : Nat)
    (hfft : cfg.guardLeft + m.numSc + dcBit cfg + cfg.guardRight = cfg.fftSize) :
    (typeRow cfg m t s sym).length = cfg.fftSize
    ∧ (∀ c ∈ typeRow cfg m t s sym, c = 0 ∨ c = 1 ∨ c = 2 ∨ c = 3)
    ∧ (typeRow cfg m t s sym).count 0 + (typeRow cfg m t s sym).count 1
        + (typeRow cfg m t s sym).count 2 + (typeRow cfg m t s sym).count 3
        = cfg.fftSize
    ∧ typeGridCount cfg m t s 0 + typeGridCount cfg m t s 1
        + typeGridCount cfg m t s 2 + typeGridCount cfg m t s 3
        = cfg.fftSize * cfg.numOfdmSymbols
    ∧ (0 ≤ splitInd cfg → typeRow cfg m t s sym = specTypeRow cfg m t s sym) := by
  have hlen : ∀ sym' : Nat, (typeRow cfg m t s sym').length = cfg.fftSize := by
    intro sym'
    rw [typeRow_length]
    exact hfft
  have hcount : ∀ sym' : Nat, (typeRow cfg m t s sym').count 0
      + (typeRow cfg m t s sym').count 1 + (typeRow cfg m t s sym').count 2
      + (typeRow cfg m t s sym').count 3 = cfg.fftSize := by
    intro sym'
    rw [count4_of_mem (typeRow_mem cfg m t s sym'), hlen]
  refine ⟨hlen sym, typeRow_mem cfg m t s sym, hcount sym, ?_, ?_⟩
  · have h := sum4_rows ((List.range cfg.numOfdmSymbols).map fun sym' => typeRow cfg m t s sym')
      (fun r hr => by
        obtain ⟨sym', -, rfl⟩ := List.mem_map.1 hr
        exact hcount sym')
    simp only [List.map_map, List.length_map, List.length_range] at h
    unfold typeGridCount
    convert h using 2
  · intro hsplit
    unfold typeRow specTypeRow pyTake pyDrop
    rw [if_pos hsplit, if_pos hsplit]

/-- Claim C5 counterexample: on the successfully constructible grid
`cfgC5` (`fft_size=9`, left guards 5, nulled DC) the split index is
negative and the produced row `[2,2,2,2,2,0,0,3,0]` places the DC code at
subcarrier 7, not at the position the spec's layout sentence prescribes
(`[2,2,2,2,2,3,0,0,0]`). -/
theorem type_grid_layout_counterexample :
    rgConstructOk cfgC5 PilotPolicy.auto qOne = true
    ∧ splitInd cfgC5 < 0
    ∧ typeRow cfgC5 maskC5 0 0 0 ≠ specTypeRow cfgC5 maskC5 0 0 0 := by
  refine ⟨by decide, ?_, ?_⟩
  · rw [splitInd, dcInd_eq]
    decide
  · simp only [typeRow, specTypeRow, splitInd, dcInd_eq]
    decide

/-- Claim C5 witness: the partition and layout facts evaluated on the
witness grid `cfgW1`. -/
theorem type_grid_partition_witness :
    (typeRow cfgW1 maskW1 0 0 0).length = 4
    ∧ typeRow cfgW1 maskW1 0 0 0 = specTypeRow cfgW1 maskW1 0 0 0 := by
  have h := type_grid_partition cfgW1 maskW1 0 0 0 (by decide)
  refine ⟨h.1, h.2.2.2.2 ?_⟩
  rw [splitInd, dcInd_eq]
  decide

/-! ## Claim C8 -/

/-- Claim C8: reading the pilots property of a pattern with the normalize
flag set returns the stored values rescaled per (tx, stream) pair to unit
mean energy (whenever the stored mean energy is positive); the read is a
pure function of the pattern and leaves the stored values untouched; with
the flag unset it returns the stored values unchanged. -/
theorem pilots_getter_normalization (pp : PilotPatternT ℂ) (t s : Nat) :
    (pp.normalize = true → 0 < meanEnergy pp.pilots t s →
      (∑ j ∈ Finset.range pp.pilots.numPilots,
          Complex.abs (pilotsGetter pp t s j) ^ 2) / pp.pilots.numPilots = 1)
    ∧ (pp.normalize = false → ∀ j, pilotsGetter pp t s j = pp.pilots.val t s j) := by
  constructor
  · intro hn hpos
    have hnp : pp.pilots.numPilots ≠ 0 := by
      intro h0
      rw [meanEnergy, h0] at hpos
      simp at hpos
    have hnpR : (pp.pilots.numPilots : ℝ) ≠ 0 := Nat.cast_ne_zero.2 hnp
    have hm0 : (0 : ℝ) < meanEnergy pp.pilots t s := hpos
    have hsum : (∑ j ∈ Finset.range pp.pilots.numPilots,
        Complex.abs (pp.pilots.val t s j) ^ 2)
        = meanEnergy pp.pilots t s * pp.pilots.numPilots := by
      rw [meanEnergy, div_mul_cancel₀ _ hnpR]
    have key : ∀ j, Complex.abs (pilotsGetter pp t s j) ^ 2
        = (1 / meanEnergy pp.pilots t s) * Complex.abs (pp.pilots.val t s j) ^ 2 := by
      intro j
      rw [pilotsGetter]
      rw [if_pos hn, map_mul, mul_pow]
      congr 1
      rw [normScale, Complex.abs_ofReal, abs_of_nonneg (by positivity), div_pow,
        one_pow, Real.sq_sqrt hm0.le]
    calc (∑ j ∈ Finset.range pp.pilots.numPilots,
          Complex.abs (pilotsGetter pp t s j) ^ 2) / pp.pilots.numPilots
        = ((1 / meanEnergy pp.pilots t s) * ∑ j ∈ Finset.range pp.pilots.numPilots,
            Complex.abs (pp.pilots.val t s j) ^ 2) / pp.pilots.numPilots := by
          congr 1
          rw [Finset.mul_sum]
          exact Finset.sum_congr rfl fun j _ => key j
      _ = 1 := by
          rw [hsum]
          field_simp
  · intro hn j
    rw [pilotsGetter, if_neg (by simp [hn])]

/-- Claim C8 witness: a concrete normalized single-pilot pattern over `ℂ`
has unit mean energy on read. -/
theorem pilots_getter_normalization_witness :
    (∑ j ∈ Finset.range ppC8.pilots.numPilots,
        Complex.abs (pilotsGetter ppC8 0 0 j) ^ 2) / ppC8.pilots.numPilots = 1 := by
  refine (pilots_getter_normalization ppC8 0 0).1 rfl ?_
  have h1 : meanEnergy ppC8.pilots 0 0 = 1 := by
    rw [meanEnergy]
    simp [ppC8]
  rw [h1]
  norm_num

/-! ## Helper lemmas for the mapper/demapper round trip: effective subcarriers -/

theorem effSubcarrierInd_length {cfg : RGConfig} {m : MaskT} (hv : ValidGeometry cfg m) :
    (effSubcarrierInd cfg).length = m.numSc := by
  unfold effSubcarrierInd
  have hdcb := hv.fft_eq
  cases hdc : cfg.dcNull with
  | false =>
    have hbit : dcBit cfg = 0 := by simp [dcBit, hdc]
    rw [if_neg (by simp [hdc])]
    rw [List.length_range']
    omega
  | true =>
    have hbit : dcBit cfg = 1 := by simp [dcBit, hdc]
    rw [if_pos (by simp [hdc])]
    unfold npDelete
    have hlen : (List.range' cfg.guardLeft (cfg.fftSize - cfg.guardRight - cfg.guardLeft)).length
        = cfg.fftSize - cfg.guardRight - cfg.guardLeft := List.length_range' _ _ _
    have hglc := hv.guard_le_dc
    have hdcle := hv.dc_le
    rw [if_neg (by omega)]
    rw [List.length_eraseIdx]
    rw [hlen]
    rw [if_pos (by omega)]
    omega

theorem effSubcarrierInd_getD {cfg : RGConfig} {m : MaskT} (hv : ValidGeometry cfg m)
    {e : Nat} (he : e < m.numSc) :
    (effSubcarrierInd cfg).getD e 0 = effGetFun cfg e := by
  unfold effSubcarrierInd effGetFun
  have hdcb := hv.fft_eq
  have hglc := hv.guard_le_dc
  have hdcle := hv.dc_le
  cases hdc : cfg.dcNull with
  | false =>
    have hbit : dcBit cfg = 0 := by simp [dcBit, hdc]
    rw [if_neg (by simp [hdc])]
    rw [if_neg (by simp [hdc])]
    have hlen : (List.range' cfg.guardLeft (cfg.fftSize - cfg.guardRight - cfg.guardLeft)).length
        = cfg.fftSize - cfg.guardRight - cfg.guardLeft := List.length_range' _ _ _
    rw [List.getD_eq_getElem _ _ (by omega)]
    rw [List.getElem_range']
    omega
  | true =>
    have hbit : dcBit cfg = 1 := by simp [dcBit, hdc]
    rw [if_pos (by simp [hdc])]
    unfold npDelete
    have hlen : (List.range' cfg.guardLeft (cfg.fftSize - cfg.guardRight - cfg.guardLeft)).length
        = cfg.fftSize - cfg.guardRight - cfg.guardLeft := List.length_range' _ _ _
    rw [if_neg (by omega)]
    have htoNat : ((dcInd cfg : Int) - cfg.guardLeft).toNat = dcInd cfg - cfg.guardLeft := by
      omega
    rw [htoNat]
    have hlen' : ((List.range' cfg.guardLeft
        (cfg.fftSize - cfg.guardRight - cfg.guardLeft)).eraseIdx
          (dcInd cfg - cfg.guardLeft)).length = m.numSc := by
      rw [List.length_eraseIdx, hlen, if_pos (by omega)]
      omega
    by_cases he' : e < dcInd cfg - cfg.guardLeft
    · rw [List.getD_eq_getElem _ _ (by omega)]
      rw [List.getElem_eraseIdx_of_lt _ _ _ _ he']
      rw [List.getElem_range']
      rw [if_neg (by omega)]
      omega
    · rw [List.getD_eq_getElem _ _ (by omega)]
      rw [List.getElem_eraseIdx_of_ge _ _ _ _ (by omega)]
      rw [List.getElem_range']
      rw [if_pos (by exact ⟨rfl, by omega⟩)]
      omega

theorem effGetFun_lt {cfg : RGConfig} {m : MaskT} (hv : ValidGeometry cfg m)
    {e : Nat} (he : e < m.numSc) : effGetFun cfg e < cfg.fftSize := by
  have hdcb := hv.fft_eq
  unfold effGetFun
  by_cases hdc : cfg.dcNull
  · have hbit : dcBit cfg = 1 := by simp [dcBit, hdc]
    split_ifs <;> omega
  · have hbit : dcBit cfg = 0 := by simp [dcBit, hdc]
    rw [if_neg (by simp [hdc])]
    omega

theorem effGetFun_strictMono (cfg : RGConfig) {e e' : Nat} (h : e < e') :
    effGetFun cfg e < effGetFun cfg e' := by
  unfold effGetFun
  by_cases h1 : cfg.dcNull ∧ dcInd cfg - cfg.guardLeft ≤ e
  · rw [if_pos h1, if_pos ⟨h1.1, by omega⟩]
    omega
  · rw [if_neg h1]
    by_cases h2 : cfg.dcNull ∧ dcInd cfg - cfg.guardLeft ≤ e'
    · rw [if_pos h2]
      omega
    · rw [if_neg h2]
      omega

theorem effGetFun_inj (cfg : RGConfig) {e e' : Nat}
    (h : effGetFun cfg e = effGetFun cfg e') : e = e' := by
  rcases Nat.lt_trichotomy e e' with hlt | heq | hgt
  · exact absurd h (Nat.ne_of_lt (effGetFun_strictMono cfg hlt))
  · exact heq
  · exact absurd h.symm (Nat.ne_of_lt (effGetFun_strictMono cfg hgt))

/-! ## Helper lemmas for the round trip: pointwise type-grid analysis -/

theorem getD_concat5 (a b c d e : List Nat) (n : Nat) :
    (a ++ b ++ c ++ d ++ e).getD n 4
      = if n < a.length then a.getD n 4
        else if n - a.length < b.length then b.getD (n - a.length) 4
        else if n - a.length - b.length < c.length then
          c.getD (n - a.length - b.length) 4
        else if n - a.length - b.length - c.length < d.length then
          d.getD (n - a.length - b.length - c.length) 4
        else e.getD (n - a.length - b.length - c.length - d.length) 4 := by
  rw [List.append_assoc, List.append_assoc, List.append_assoc]
  by_cases h1 : n < a.length
  · rw [if_pos h1, List.getD_append _ _ _ _ h1]
  · rw [if_neg h1, List.getD_append_right _ _ _ _ (by omega)]
    by_cases h2 : n - a.length < b.length
    · rw [if_pos h2, List.getD_append _ _ _ _ h2]
    · rw [if_neg h2, List.getD_append_right _ _ _ _ (by omega)]
      by_cases h3 : n - a.length - b.length < c.length
      · rw [if_pos h3, List.getD_append _ _ _ _ h3]
      · rw [if_neg h3, List.getD_append_right _ _ _ _ (by omega)]
        by_cases h4 : n - a.length - b.length - c.length < d.length
        · rw [if_pos h4, List.getD_append _ _ _ _ h4]
        · rw [if_neg h4, List.getD_append_right _ _ _ _ (by omega)]

theorem getD_replicate_lt {n i c : Nat} (h : i < n) :
    (List.replicate n c).getD i 4 = c := by
  rw [List.getD_eq_getElem _ _ (by simpa using h)]
  exact List.getElem_replicate _ _

theorem maskRow_getD (m : MaskT) (t s sym : Nat) {e : Nat} (he : e < m.numSc) :
    (maskRow m t s sym).getD e 4 = if m.val t s sym e then 1 else 0 := by
  unfold maskRow
  rw [List.getD_eq_getElem _ _ (by simpa using he)]
  simp

theorem typeRow_eq {cfg : RGConfig} {m : MaskT} (hv : ValidGeometry cfg m) (t s sym : Nat) :
    typeRow cfg m t s sym
      = List.replicate cfg.guardLeft 2
        ++ (maskRow m t s sym).take (dcInd cfg - cfg.guardLeft)
        ++ (if cfg.dcNull then [3] else [])
        ++ (maskRow m t s sym).drop (dcInd cfg - cfg.guardLeft)
        ++ List.replicate cfg.guardRight 2 := by
  have hglc := hv.guard_le_dc
  unfold typeRow pyTake pyDrop splitInd
  have h0 : (0 : Int) ≤ (dcInd cfg : Int) - cfg.guardLeft := by omega
  have htoNat : ((dcInd cfg : Int) - cfg.guardLeft).toNat = dcInd cfg - cfg.guardLeft := by
    omega
  rw [if_pos h0, if_pos h0, htoNat]

theorem typeAt_eff {cfg : RGConfig} {m : MaskT} (hv : ValidGeometry cfg m)
    (t s sym : Nat) {e : Nat} (he : e < m.numSc) :
    typeAt cfg m t s sym (effGetFun cfg e) = if m.val t s sym e then 1 else 0 := by
  have hglc := hv.guard_le_dc
  have hdcle := hv.dc_le
  have hmr : (maskRow m t s sym).length = m.numSc := maskRow_length m t s sym
  have htake : ((maskRow m t s sym).take (dcInd cfg - cfg.guardLeft)).length
      = dcInd cfg - cfg.guardLeft := by
    rw [List.length_take]
    omega
  have hdrop : ((maskRow m t s sym).drop (dcInd cfg - cfg.guardLeft)).length
      = m.numSc - (dcInd cfg - cfg.guardLeft) := by
    rw [List.length_drop]
    omega
  unfold typeAt
  rw [typeRow_eq hv, getD_concat5]
  by_cases he' : e < dcInd cfg - cfg.guardLeft
  · have heff : effGetFun cfg e = cfg.guardLeft + e := by
      unfold effGetFun
      rw [if_neg (by omega)]
      omega
    rw [heff]
    rw [if_neg (by simp), if_pos (by simp [htake]; omega)]
    have hidx : cfg.guardLeft + e - (List.replicate cfg.guardLeft 2).length = e := by
      simp
    rw [hidx]
    rw [List.getD_eq_getElem _ _ (by omega), List.getElem_take]
    rw [← List.getD_eq_getElem _ 4 (by omega)]
    exact maskRow_getD m t s sym he
  · by_cases hdc : cfg.dcNull
    · have heff : effGetFun cfg e = cfg.guardLeft + e + 1 := by
        unfold effGetFun
        rw [if_pos ⟨hdc, by omega⟩]
      rw [heff]
      rw [if_neg (by simp; omega), if_neg (by simp [htake]; omega),
        if_neg (by simp [htake, hdc]; omega), if_pos (by simp [htake, hdrop, hdc]; omega)]
      have hidx : cfg.guardLeft + e + 1 - (List.replicate cfg.guardLeft 2).length
          - ((maskRow m t s sym).take (dcInd cfg - cfg.guardLeft)).length
          - (if cfg.dcNull then [3] else ([] : List Nat)).length
          = e - (dcInd cfg - cfg.guardLeft) := by
        simp [htake, hdc]
        omega
      rw [hidx]
      rw [List.getD_eq_getElem _ _ (by omega), List.getElem_drop]
      rw [← List.getD_eq_getElem _ 4 (by omega)]
      have harg : dcInd cfg - cfg.guardLeft + (e - (dcInd cfg - cfg.guardLeft)) = e := by
        omega
      rw [harg]
      exact maskRow_getD m t s sym he
    · have heff : effGetFun cfg e = cfg.guardLeft + e := by
        unfold effGetFun
        rw [if_neg (by simp [hdc])]
        omega
      rw [heff]
      rw [if_neg (by simp), if_neg (by simp [htake]; omega),
        if_neg (by simp [hdc]), if_pos (by simp [htake, hdrop, hdc]; omega)]
      have hidx : cfg.guardLeft + e - (List.replicate cfg.guardLeft 2).length
          - ((maskRow m t s sym).take (dcInd cfg - cfg.guardLeft)).length
          - (if cfg.dcNull then [3] else ([] : List Nat)).length
          = e - (dcInd cfg - cfg.guardLeft) := by
        simp [htake, hdc]
        try omega
      rw [hidx]
      rw [List.getD_eq_getElem _ _ (by omega), List.getElem_drop]
      rw [← List.getD_eq_getElem _ 4 (by omega)]
      have harg : dcInd cfg - cfg.guardLeft + (e - (dcInd cfg - cfg.guardLeft)) = e := by
        omega
      rw [harg]
      exact maskRow_getD m t s sym he

theorem typeAt_zero_inv {cfg : RGConfig} {m : MaskT} (hv : ValidGeometry cfg m)
    (t s sym : Nat) {sc : Nat} (hsc : sc < cfg.fftSize)
    (h0 : typeAt cfg m t s sym sc = 0) :
    ∃ e, e < m.numSc ∧ m.val t s sym e = false ∧ sc = effGetFun cfg e := by
  have hglc := hv.guard_le_dc
  have hdcle := hv.dc_le
  have hfft := hv.fft_eq
  have hmr : (maskRow m t s sym).length = m.numSc := maskRow_length m t s sym
  have htake : ((maskRow m t s sym).take (dcInd cfg - cfg.guardLeft)).length
      = dcInd cfg - cfg.guardLeft := by
    rw [List.length_take]
    omega
  have hdrop : ((maskRow m t s sym).drop (dcInd cfg - cfg.guardLeft)).length
      = m.numSc - (dcInd cfg - cfg.guardLeft) := by
    rw [List.length_drop]
    omega
  have hdcl : (if cfg.dcNull then [3] else ([] : List Nat)).length = dcBit cfg := by
    by_cases hdc : cfg.dcNull <;> simp [hdc, dcBit]
  unfold typeAt at h0
  rw [typeRow_eq hv, getD_concat5] at h0
  simp only [List.length_replicate, htake, hdcl, hdrop] at h0
  by_cases h1 : sc < cfg.guardLeft
  · rw [if_pos h1, getD_replicate_lt h1] at h0
    exact absurd h0 (by omega)
  · rw [if_neg h1] at h0
    by_cases h2 : sc - cfg.guardLeft < dcInd cfg - cfg.guardLeft
    · rw [if_pos h2] at h0
      refine ⟨sc - cfg.guardLeft, by omega, ?_, ?_⟩
      · rw [List.getD_eq_getElem _ _ (by omega), List.getElem_take,
          ← List.getD_eq_getElem _ 4 (by omega), maskRow_getD m t s sym (by omega)] at h0
        by_cases hval : m.val t s sym (sc - cfg.guardLeft)
        · rw [if_pos hval] at h0
          exact absurd h0 (by omega)
        · simpa using hval
      · unfold effGetFun
        rw [if_neg (by omega)]
        omega
    · rw [if_neg h2] at h0
      by_cases h3 : sc - cfg.guardLeft - (dcInd cfg - cfg.guardLeft) < dcBit cfg
      · rw [if_pos h3] at h0
        exfalso
        have hdc : cfg.dcNull := by
          by_contra hcon
          have : dcBit cfg = 0 := by simp [dcBit, hcon]
          omega
        rw [if_pos hdc] at h0
        have hzero : sc - cfg.guardLeft - (dcInd cfg - cfg.guardLeft) = 0 := by
          have : dcBit cfg = 1 := by simp [dcBit, hdc]
          omega
        rw [hzero] at h0
        simp at h0
      · rw [if_neg h3] at h0
        by_cases h4 : sc - cfg.guardLeft - (dcInd cfg - cfg.guardLeft) - dcBit cfg
            < m.numSc - (dcInd cfg - cfg.guardLeft)
        · rw [if_pos h4] at h0
          set j := sc - cfg.guardLeft - (dcInd cfg - cfg.guardLeft) - dcBit cfg with hj
          refine ⟨dcInd cfg - cfg.guardLeft + j, by omega, ?_, ?_⟩
          · rw [List.getD_eq_getElem _ _ (by omega), List.getElem_drop,
              ← List.getD_eq_getElem _ 4 (by omega),
              maskRow_getD m t s sym (by omega)] at h0
            by_cases hval : m.val t s sym (dcInd cfg - cfg.guardLeft + j)
            · rw [if_pos hval] at h0
              exact absurd h0 (by omega)
            · simpa using hval
          · unfold effGetFun
            by_cases hdc : cfg.dcNull
            · rw [if_pos ⟨hdc, by omega⟩]
              have hbit : dcBit cfg = 1 := by simp [dcBit, hdc]
              omega
            · rw [if_neg (by simp [hdc])]
              have hbit : dcBit cfg = 0 := by simp [dcBit, hdc]
              omega
        · rw [if_neg h4] at h0
          have hlast : sc - cfg.guardLeft - (dcInd cfg - cfg.guardLeft) - dcBit cfg
              - (m.numSc - (dcInd cfg - cfg.guardLeft)) < cfg.guardRight := by
            omega
          rw [getD_replicate_lt hlast] at h0
          exact absurd h0 (by omega)

/-! ## Helper lemmas for the round trip: row and flattened index lists -/

theorem mem_rowZeros {m : MaskT} {t s sym e : Nat} :
    e ∈ rowZeros m t s sym ↔ e < m.numSc ∧ m.val t s sym e = false := by
  unfold rowZeros
  simp [List.mem_filter]

theorem rowZeros_sorted (m : MaskT) (t s sym : Nat) :
    List.Pairwise (· < ·) (rowZeros m t s sym) :=
  List.Pairwise.filter _ (List.pairwise_lt_range _)

theorem rowZeros_nodup (m : MaskT) (t s sym : Nat) : (rowZeros m t s sym).Nodup :=
  List.Nodup.filter _ (List.nodup_range _)

theorem rowData_eq {cfg : RGConfig} {m : MaskT} (hv : ValidGeometry cfg m) (t s sym : Nat) :
    rowData cfg m t s sym = (rowZeros m t s sym).map (effGetFun cfg) := by
  haveI hanti : IsAntisymm Nat (· < ·) :=
    ⟨fun a b h1 h2 => absurd h2 (Nat.lt_asymm h1)⟩
  have hnd1 : (rowData cfg m t s sym).Nodup := List.Nodup.filter _ (List.nodup_range _)
  have hnd2 : ((rowZeros m t s sym).map (effGetFun cfg)).Nodup :=
    List.Nodup.map_on (fun x _ y _ h => effGetFun_inj cfg h) (rowZeros_nodup m t s sym)
  have hsort1 : List.Pairwise (· < ·) (rowData cfg m t s sym) :=
    List.Pairwise.filter _ (List.pairwise_lt_range _)
  have hsort2 : List.Pairwise (· < ·) ((rowZeros m t s sym).map (effGetFun cfg)) := by
    rw [List.pairwise_map]
    exact (rowZeros_sorted m t s sym).imp fun h => effGetFun_strictMono cfg h
  refine List.eq_of_perm_of_sorted ((List.perm_ext_iff_of_nodup hnd1 hnd2).2 ?_) hsort1 hsort2
  intro sc
  unfold rowData
  simp only [List.mem_filter, List.mem_range, beq_iff_eq, List.mem_map]
  constructor
  · rintro ⟨hlt, h0⟩
    obtain ⟨e, he, hval, rfl⟩ := typeAt_zero_inv hv t s sym hlt h0
    exact ⟨e, mem_rowZeros.2 ⟨he, hval⟩, rfl⟩
  · rintro ⟨e, hmem, rfl⟩
    obtain ⟨he, hval⟩ := mem_rowZeros.1 hmem
    refine ⟨effGetFun_lt hv he, ?_⟩
    rw [typeAt_eff hv t s sym he, if_neg (by simp [hval])]

theorem mul_add_div_self {E sym e : Nat} (he : e < E) : (sym * E + e) / E = sym := by
  rw [Nat.add_comm, Nat.add_mul_div_right _ _ (by omega), Nat.div_eq_of_lt he]
  omega

theorem mul_add_mod_self {E sym e : Nat} (he : e < E) : (sym * E + e) % E = e := by
  rw [Nat.add_comm, Nat.add_mul_mod_self_right, Nat.mod_eq_of_lt he]

theorem range_mul_decomp (a b : Nat) :
    List.range (a * b)
      = (List.range a).flatMap fun i => (List.range b).map fun j => i * b + j := by
  induction a with
  | zero => simp
  | succ a ih =>
    rw [Nat.succ_mul, List.range_add, ih, List.range_succ, List.flatMap_append]
    simp

theorem zerosFlat_decomp (m : MaskT) (t s : Nat) :
    zerosFlat m t s
      = (List.range m.numSym).flatMap fun sym =>
          (rowZeros m t s sym).map fun e => sym * m.numSc + e := by
  unfold zerosFlat
  rw [range_mul_decomp, List.filter_flatMap]
  refine List.flatMap_congr ?_
  intro sym _
  rw [List.filter_map]
  unfold rowZeros
  have hfc : ((List.range m.numSc).filter
        ((fun j => decide (m.val t s (j / m.numSc) (j % m.numSc) = false))
          ∘ fun j => sym * m.numSc + j))
      = (List.range m.numSc).filter (fun e => decide (m.val t s sym e = false)) := by
    refine List.filter_congr ?_
    intro e he
    have he' : e < m.numSc := List.mem_range.1 he
    simp only [Function.comp]
    rw [mul_add_div_self he', mul_add_mod_self he']
  rw [hfc]

theorem zerosFlat_mem {m : MaskT} {t s j : Nat} :
    j ∈ zerosFlat m t s
      ↔ j < m.numSym * m.numSc ∧ m.val t s (j / m.numSc) (j % m.numSc) = false := by
  unfold zerosFlat
  simp [List.mem_filter]

theorem zerosFlat_nodup (m : MaskT) (t s : Nat) : (zerosFlat m t s).Nodup :=
  List.Nodup.filter _ (List.nodup_range _)

theorem countP_flatMap_nat {β : Type} (l : List β) (f : β → List Nat) (p : Nat → Bool) :
    (l.flatMap f).countP p = (l.map fun a => (f a).countP p).sum := by
  induction l with
  | nil => rfl
  | cons a l ih => simp [List.flatMap_cons, List.countP_append, ih]

theorem maskCount_eq_countP (m : MaskT) (t s : Nat) :
    maskCount m t s
      = (List.range (m.numSym * m.numSc)).countP
          fun j => m.val t s (j / m.numSc) (j % m.numSc) := by
  unfold maskCount
  rw [range_mul_decomp, countP_flatMap_nat, sum_flatMap_nat]
  congr 1
  refine List.map_congr_left ?_
  intro sym _
  rw [List.countP_map]
  have h1 : ((List.range m.numSc).map
      fun e => if m.val t s sym e then 1 else 0).sum
      = (List.range m.numSc).countP (fun e => m.val t s sym e) * 1 :=
    sum_map_ite_const
  rw [h1, Nat.mul_one]
  refine List.countP_congr ?_
  intro e he
  have he' : e < m.numSc := List.mem_range.1 he
  simp only [Function.comp]
  rw [mul_add_div_self he', mul_add_mod_self he']

theorem countP_not_add (l : List Nat) (p : Nat → Bool) :
    l.countP (fun a => !(p a)) + l.countP p = l.length := by
  induction l with
  | nil => rfl
  | cons a l ih =>
    simp only [List.countP_cons, List.length_cons]
    cases hpa : p a <;> simp [hpa] <;> omega

theorem zerosFlat_length (m : MaskT) (t s : Nat) :
    (zerosFlat m t s).length = m.numSym * m.numSc - maskCount m t s := by
  unfold zerosFlat
  rw [← List.countP_eq_length_filter, maskCount_eq_countP]
  have hcongr : List.countP (fun j => decide (m.val t s (j / m.numSc) (j % m.numSc) = false))
        (List.range (m.numSym * m.numSc))
      = List.countP (fun j => !(m.val t s (j / m.numSc) (j % m.numSc)))
        (List.range (m.numSym * m.numSc)) := by
    refine List.countP_congr ?_
    intro j _
    simp
  rw [hcongr]
  have h := countP_not_add (List.range (m.numSym * m.numSc))
    (fun j => m.val t s (j / m.numSc) (j % m.numSc))
  rw [List.length_range] at h
  omega

/-! ## Helper lemmas for the round trip: global scatter/gather index algebra -/

theorem dataIndexList_decomp (cfg : RGConfig) (m : MaskT) :
    dataIndexList cfg m
      = (List.range cfg.numTx).flatMap fun t =>
          (List.range cfg.numStreamsPerTx).flatMap fun s => pairData cfg m t s := by
  unfold dataIndexList positionsList pairData rowData
  rw [List.filter_flatMap]
  refine List.flatMap_congr ?_
  intro t _
  rw [List.filter_flatMap]
  refine List.flatMap_congr ?_
  intro s _
  rw [List.filter_flatMap]
  refine List.flatMap_congr ?_
  intro sym _
  rw [List.filter_map]
  rfl

theorem pairData_eq {cfg : RGConfig} {m : MaskT} (hv : ValidGeometry cfg m) (t s : Nat) :
    pairData cfg m t s
      = (zerosFlat m t s).map
          (fun j => (t, s, j / m.numSc, effGetFun cfg (j % m.numSc))) := by
  unfold pairData
  rw [zerosFlat_decomp, List.map_flatMap, hv.sym_eq]
  refine List.flatMap_congr ?_
  intro sym _
  rw [rowData_eq hv t s sym, List.map_map, List.map_map]
  refine List.map_congr_left ?_
  intro e he
  have he' : e < m.numSc := (mem_rowZeros.1 he).1
  simp only [Function.comp]
  rw [mul_add_div_self he', mul_add_mod_self he']

theorem pairData_length {cfg : RGConfig} {m : MaskT} (hv : ValidGeometry cfg m) (t s : Nat) :
    (pairData cfg m t s).length = m.numSym * m.numSc - maskCount m t s := by
  rw [pairData_eq hv, List.length_map, zerosFlat_length]

theorem getD_flatMap_blocks {α β : Type} (L : Nat) (d : α) (f : β → List α) :
    ∀ (l : List β), (∀ b ∈ l, (f b).length = L) →
      ∀ (i j : Nat) (hi : i < l.length), j < L →
        (l.flatMap f).getD (i * L + j) d = (f (l.get ⟨i, hi⟩)).getD j d := by
  intro l
  induction l with
  | nil =>
    intro _ i j hi _
    simp at hi
  | cons b l ih =>
    intro hf i j hi hj
    cases i with
    | zero =>
      rw [List.flatMap_cons, Nat.zero_mul, Nat.zero_add]
      rw [List.getD_append _ _ _ _ (by rw [hf b (List.mem_cons_self b l)]; omega)]
      rfl
    | succ i =>
      rw [List.flatMap_cons]
      have hbl : (f b).length = L := hf b (List.mem_cons_self b l)
      have hmul : (i + 1) * L = i * L + L := by ring
      rw [List.getD_append_right _ _ _ _ (by omega)]
      have harith : (i + 1) * L + j - (f b).length = i * L + j := by omega
      rw [harith]
      exact ih (fun b' hb' => hf b' (List.mem_cons_of_mem _ hb')) i j
        (by simpa using hi) hj

theorem findIdx?_flatMap_blocks {α β : Type} (L : Nat) (p : α → Bool) (f : β → List α) :
    ∀ (l : List β), (∀ b ∈ l, (f b).length = L) →
      ∀ (i j : Nat) (hi : i < l.length),
        (∀ b ∈ l.take i, ∀ a ∈ f b, p a = false) →
        (f (l.get ⟨i, hi⟩)).findIdx? p = some j →
        (l.flatMap f).findIdx? p = some (i * L + j) := by
  intro l
  induction l with
  | nil =>
    intro _ i j hi _ _
    simp at hi
  | cons b l ih =>
    intro hf i j hi hpre hfind
    cases i with
    | zero =>
      rw [List.flatMap_cons, List.findIdx?_append]
      have hb : (f ((b :: l).get ⟨0, hi⟩)).findIdx? p = some j := hfind
      rw [show (b :: l).get ⟨0, hi⟩ = b from rfl] at hb
      rw [hb]
      rw [Nat.zero_mul, Nat.zero_add]
      rfl
    | succ i =>
      rw [List.flatMap_cons, List.findIdx?_append]
      have hnone : (f b).findIdx? p = none := by
        rw [List.findIdx?_eq_none_iff]
        intro a ha
        exact hpre b (by simp [List.take_succ_cons]) a ha
      rw [hnone]
      have hrest : (l.flatMap f).findIdx? p = some (i * L + j) := by
        refine ih (fun b' hb' => hf b' (List.mem_cons_of_mem _ hb')) i j
          (by simpa using hi) ?_ hfind
        intro b' hb' a ha
        exact hpre b' (by simp [List.take_succ_cons, hb']) a ha
      rw [hrest]
      have hbl : (f b).length = L := hf b (List.mem_cons_self b l)
      have hmul : (i + 1) * L = i * L + L := by ring
      have hfinal : i * L + j + (f b).length = (i + 1) * L + j := by omega
      simp only [Option.map_some', Option.none_or, hfinal]

theorem findIdx?_getElem_of_nodup :
    ∀ (l : List Nat), l.Nodup → ∀ (k : Nat) (hk : k < l.length),
      l.findIdx? (fun a => a = l.get ⟨k, hk⟩) = some k := by
  intro l
  induction l with
  | nil =>
    intro _ k hk
    simp at hk
  | cons b l ih =>
    intro hnd k hk
    obtain ⟨hbl, hnd'⟩ := List.nodup_cons.1 hnd
    cases k with
    | zero =>
      rw [List.findIdx?_cons, if_pos (by simp)]
    | succ k =>
      have hget : (b :: l).get ⟨k + 1, hk⟩ = l.get ⟨k, by simpa using hk⟩ := rfl
      rw [List.findIdx?_cons]
      rw [if_neg ?hne]
      case hne =>
        simp only [decide_eq_true_eq, hget]
        intro hcon
        exact hbl (hcon ▸ List.get_mem l k (by simpa using hk))
      rw [List.findIdx?_start_succ]
      have hrec := ih hnd' k (by simpa using hk)
      rw [hget, hrec]
      simp

theorem findIdx?_congr {α : Type} (l : List α) (p q : α → Bool)
    (h : ∀ a ∈ l, p a = q a) : l.findIdx? p = l.findIdx? q := by
  induction l with
  | nil => rfl
  | cons b l ih =>
    rw [List.findIdx?_cons, List.findIdx?_cons, h b (List.mem_cons_self b l)]
    cases hq : q b
    · rw [if_neg (by simp [hq]), if_neg (by simp [hq])]
      rw [List.findIdx?_start_succ, List.findIdx?_start_succ,
        ih (fun a ha => h a (List.mem_cons_of_mem _ ha))]
    · rw [if_pos (by simp [hq]), if_pos (by simp [hq])]

theorem length_flatMap_const {α β : Type} (L : Nat) (f : β → List α) :
    ∀ l : List β, (∀ b ∈ l, (f b).length = L) → (l.flatMap f).length = l.length * L := by
  intro l
  induction l with
  | nil =>
    intro _
    simp
  | cons b l ih =>
    intro hf
    rw [List.flatMap_cons, List.length_append, hf b (List.mem_cons_self b l),
      ih (fun b' hb' => hf b' (List.mem_cons_of_mem _ hb')), List.length_cons]
    ring

theorem mem_pairData {cfg : RGConfig} {m : MaskT} {t s : Nat}
    {a : Nat × Nat × Nat × Nat} (h : a ∈ pairData cfg m t s) :
    a.1 = t ∧ a.2.1 = s := by
  unfold pairData at h
  obtain ⟨sym, -, h⟩ := List.mem_flatMap.1 h
  obtain ⟨sc, -, rfl⟩ := List.mem_map.1 h
  exact ⟨rfl, rfl⟩

/-! ## The mapper characterization and the demapper data gather -/

theorem mapGrid_data_value {α : Type} [Zero α] {cfg : RGConfig} {m : MaskT}
    (hv : ValidGeometry cfg m) (pil : PilotsT α) {nd np : Nat}
    (x : Nat → Nat → Nat → Nat → α) (b : Nat)
    (hcount : ∀ t' < cfg.numTx, ∀ s' < cfg.numStreamsPerTx, maskCount m t' s' = np)
    (hnd : np + nd = m.numSym * m.numSc)
    {t s k : Nat} (ht : t < cfg.numTx) (hs : s < cfg.numStreamsPerTx) (hk : k < nd) :
    mapGrid cfg m pil nd x b t s ((zerosFlat m t s).getD k 0 / m.numSc)
      (effGetFun cfg ((zerosFlat m t s).getD k 0 % m.numSc)) = x b t s k := by
  have hzlen : (zerosFlat m t s).length = nd := by
    rw [zerosFlat_length, hcount t ht s hs]
    omega
  have hkz : k < (zerosFlat m t s).length := by omega
  set j := (zerosFlat m t s).getD k 0 with hj
  have hjget : (zerosFlat m t s).get ⟨k, hkz⟩ = j := by
    rw [hj, List.getD_eq_getElem _ _ hkz]
    rfl
  have hjmem : j ∈ zerosFlat m t s := by
    rw [← hjget]
    exact List.get_mem _ _ _
  obtain ⟨hjlt, hjbit⟩ := zerosFlat_mem.1 hjmem
  have hsc0 : 0 < m.numSc := by
    rcases Nat.eq_zero_or_pos m.numSc with h0 | h0
    · rw [h0, Nat.mul_zero] at hjlt
      omega
    · exact h0
  -- the target position and the search predicate of the data scatter
  set target : Nat × Nat × Nat × Nat
    := (t, s, j / m.numSc, effGetFun cfg (j % m.numSc)) with htarget
  set p : Nat × Nat × Nat × Nat → Bool := fun pos => decide (pos = target) with hp
  -- the search inside the (t, s) block finds local index k
  have hfind_pair : (pairData cfg m t s).findIdx? p = some k := by
    rw [pairData_eq hv t s, List.findIdx?_map]
    have hcong : ∀ a ∈ zerosFlat m t s,
        (p ∘ fun j' => (t, s, j' / m.numSc, effGetFun cfg (j' % m.numSc))) a
          = decide (a = (zerosFlat m t s).get ⟨k, hkz⟩) := by
      intro a ha
      simp only [Function.comp, hp, htarget]
      rw [hjget]
      refine decide_eq_decide.2 ?_
      constructor
      · intro hEq
        simp only [Prod.mk.injEq] at hEq
        obtain ⟨-, -, h1, h2⟩ := hEq
        have h3 : a % m.numSc = j % m.numSc := effGetFun_inj cfg h2
        have h4 := Nat.div_add_mod a m.numSc
        have h5 := Nat.div_add_mod j m.numSc
        have h6 : m.numSc * (a / m.numSc) = m.numSc * (j / m.numSc) := by rw [h1]
        omega
      · intro hEq
        rw [hEq]
    rw [findIdx?_congr _ _ _ hcong,
      findIdx?_getElem_of_nodup _ (zerosFlat_nodup m t s) k hkz]
  -- block lengths
  have hpairlen : ∀ t' < cfg.numTx, ∀ s' < cfg.numStreamsPerTx,
      (pairData cfg m t' s').length = nd := by
    intro t' ht' s' hs'
    rw [pairData_length hv, hcount t' ht' s' hs']
    omega
  -- the search inside the flattened stream axis of transmitter t
  have hfind_inner : (((List.range cfg.numStreamsPerTx).flatMap
      fun s' => pairData cfg m t s')).findIdx? p = some (s * nd + k) := by
    refine findIdx?_flatMap_blocks nd p (fun s' => pairData cfg m t s')
      (List.range cfg.numStreamsPerTx)
      (fun s' hs' => hpairlen t ht s' (List.mem_range.1 hs'))
      s k (by simpa using hs) ?_ ?_
    · intro s'' hs'' a ha
      rw [List.take_range] at hs''
      have hlt : s'' < s := by
        have := List.mem_range.1 hs''
        omega
      have hshape := mem_pairData ha
      refine decide_eq_false ?_
      intro hEq
      rw [hEq, htarget] at hshape
      simp at hshape
      omega
    · have hgets : (List.range cfg.numStreamsPerTx).get ⟨s, by simpa using hs⟩ = s := by
        rw [List.get_eq_getElem, List.getElem_range]
      rw [hgets]
      exact hfind_pair
  -- the global search over all transmitters
  have hfind_all : (dataIndexList cfg m).findIdx? p
      = some (t * (cfg.numStreamsPerTx * nd) + (s * nd + k)) := by
    rw [dataIndexList_decomp]
    refine findIdx?_flatMap_blocks (cfg.numStreamsPerTx * nd) p
      (fun t' => (List.range cfg.numStreamsPerTx).flatMap fun s' => pairData cfg m t' s')
      (List.range cfg.numTx)
      ?_ t (s * nd + k) (by simpa using ht) ?_ ?_
    · intro t' ht'
      rw [length_flatMap_const nd _ _
        (fun s' hs' => hpairlen t' (List.mem_range.1 ht') s' (List.mem_range.1 hs'))]
      simp
    · intro t'' ht'' a ha
      rw [List.take_range] at ht''
      have hlt : t'' < t := by
        have := List.mem_range.1 ht''
        omega
      obtain ⟨s'', -, ha⟩ := List.mem_flatMap.1 ha
      have hshape := mem_pairData ha
      refine decide_eq_false ?_
      intro hEq
      rw [hEq, htarget] at hshape
      simp at hshape
      omega
    · have hgett : (List.range cfg.numTx).get ⟨t, by simpa using ht⟩ = t := by
        rw [List.get_eq_getElem, List.getElem_range]
      rw [hgett]
      exact hfind_inner
  -- the flattened data tensor reads back x b t s k at that global index
  have hget_inner : (((List.range cfg.numStreamsPerTx).flatMap
      fun s' => (List.range nd).map fun k' => x b t s' k')).getD (s * nd + k) 0
      = x b t s k := by
    have h1 := getD_flatMap_blocks nd (0 : α)
      (fun s' => (List.range nd).map fun k' => x b t s' k')
      (List.range cfg.numStreamsPerTx) (fun s' _ => by simp)
      s k (by simpa using hs) hk
    rw [h1]
    have hgets : (List.range cfg.numStreamsPerTx).get ⟨s, by simpa using hs⟩ = s := by
      rw [List.get_eq_getElem, List.getElem_range]
    rw [hgets, List.getD_eq_getElem _ _ (by simpa using hk)]
    simp
  have hget_all : (flatData cfg nd x b).getD
      (t * (cfg.numStreamsPerTx * nd) + (s * nd + k)) 0 = x b t s k := by
    unfold flatData
    have h1 := getD_flatMap_blocks (cfg.numStreamsPerTx * nd) (0 : α)
      (fun t' => (List.range cfg.numStreamsPerTx).flatMap
        fun s' => (List.range nd).map fun k' => x b t' s' k')
      (List.range cfg.numTx)
      (fun t' _ => by rw [length_flatMap_const nd _ _ (fun s' _ => by simp)]; simp)
      t (s * nd + k) (by simpa using ht)
      (by
        have hle : (s + 1) * nd ≤ cfg.numStreamsPerTx * nd :=
          Nat.mul_le_mul_right _ (by omega)
        have hmul : (s + 1) * nd = s * nd + nd := by ring
        omega)
    rw [h1]
    have hgett : (List.range cfg.numTx).get ⟨t, by simpa using ht⟩ = t := by
      rw [List.get_eq_getElem, List.getElem_range]
    rw [hgett]
    exact hget_inner
  -- assemble
  show mapGrid cfg m pil nd x b t s (j / m.numSc) (effGetFun cfg (j % m.numSc))
      = x b t s k
  unfold mapGrid
  rw [show (fun pos => decide (pos
      = (t, s, j / m.numSc, effGetFun cfg (j % m.numSc)))) = p from by rw [hp, htarget]]
  rw [hfind_all]
  exact hget_all

theorem demapDataInd_eq {m : MaskT} {np nd : Nat} (t s : Nat)
    (hcount : maskCount m t s = np)
    (hnd : np + nd = m.numSym * m.numSc) :
    demapDataInd m np t s = zerosFlat m t s := by
  have hcomm : m.numSc * m.numSym = m.numSym * m.numSc := Nat.mul_comm _ _
  have hzlen : (zerosFlat m t s).length = nd := by
    rw [zerosFlat_length, hcount]
    omega
  unfold demapDataInd
  have hppnd : ppNumDataSymbols m np = (nd : Int) := by
    unfold ppNumDataSymbols
    omega
  rw [hppnd]
  have hpt : ∀ l : List Nat, pyTake (nd : Int) l = l.take nd := by
    intro l
    unfold pyTake
    rw [if_pos (by omega)]
    simp
  rw [hpt]
  unfold argsortZerosFirst
  have hlen : (flatMaskBits m t s).length = m.numSym * m.numSc := by
    unfold flatMaskBits
    simp
  have hzeros : (List.range (flatMaskBits m t s).length).filter
      (fun i => (flatMaskBits m t s).getD i false == false) = zerosFlat m t s := by
    rw [hlen]
    unfold zerosFlat
    refine List.filter_congr ?_
    intro i hi
    have hi' : i < m.numSym * m.numSc := List.mem_range.1 hi
    have hbits : (flatMaskBits m t s).getD i false
        = m.val t s (i / m.numSc) (i % m.numSc) := by
      unfold flatMaskBits
      rw [List.getD_eq_getElem _ _ (by simpa using hi')]
      simp
    rw [hbits]
    cases m.val t s (i / m.numSc) (i % m.numSc) <;> rfl
  rw [hzeros]
  exact List.take_left' hzlen

/-! ## Claim C1 -/

/-- Claim C1 (amended): for every valid `ResourceGrid` whose geometry places
the DC split index within the mask row (`ValidGeometry`, which also records
the per-pair pilot-count invariant of a constructed pattern via `hcount`),
and an identity stream-ordering table, applying `ResourceGridMapper` and
then `ResourceGridDemapper` with no intervening transform returns the data
tensor exactly: `demap (map x) b t s k = x b t s k` for every batch index
and every in-range `(t, s, k)`.  (Grids whose `dc_ind` falls outside the
guard band are constructible but mis-splice the DC block, breaking the
round trip; see the counterexample.) -/
theorem mapper_demapper_roundtrip
    (α : Type) [Zero α] (cfg : RGConfig) (m : MaskT) (pil : PilotsT α)
    (np nd : Nat) (x : Nat → Nat → Nat → Nat → α) (streamInd : Nat → Nat)
    (hv : ValidGeometry cfg m)
    (hcount : ∀ t' < cfg.numTx, ∀ s' < cfg.numStreamsPerTx, maskCount m t' s' = np)
    (hnd : np + nd = m.numSym * m.numSc)
    (hid : ∀ i, streamInd i = i)
    (b t s k : Nat) (ht : t < cfg.numTx) (hs : s < cfg.numStreamsPerTx) (hk : k < nd) :
    demap cfg m np cfg.numStreamsPerTx streamInd cfg.numStreamsPerTx
      (mapGrid cfg m pil nd x) b t s k = x b t s k := by
  have hE : (effSubcarrierInd cfg).length = m.numSc := effSubcarrierInd_length hv
  have hzlen : (zerosFlat m t s).length = nd := by
    rw [zerosFlat_length, hcount t ht s hs]
    omega
  have hkz : k < (zerosFlat m t s).length := by omega
  simp only [demap]
  rw [demapDataInd_eq t s (hcount t ht s hs) hnd]
  set j := (zerosFlat m t s).getD k 0 with hj
  have hjmem : j ∈ zerosFlat m t s := by
    have hjget : (zerosFlat m t s).get ⟨k, hkz⟩ = j := by
      rw [hj, List.getD_eq_getElem _ _ hkz]
      rfl
    rw [← hjget]
    exact List.get_mem _ _ _
  obtain ⟨hjlt, hjbit⟩ := zerosFlat_mem.1 hjmem
  have hsc0 : 0 < m.numSc := by
    rcases Nat.eq_zero_or_pos m.numSc with h0 | h0
    · rw [h0, Nat.mul_zero] at hjlt
      omega
    · exact h0
  rw [hid (t * cfg.numStreamsPerTx + s)]
  rw [mul_add_div_self hs, mul_add_mod_self hs, hE]
  rw [effSubcarrierInd_getD hv (Nat.mod_lt _ hsc0)]
  exact mapGrid_data_value hv pil x b hcount hnd ht hs hk

/-- Claim C1 counterexample: the grid `cfgC5` (`fft_size=9`, left guards 5,
nulled DC) constructs successfully with the default empty pilot pattern,
yet its negative DC split index makes `build_type_grid` place the DC code
at subcarrier 7 while `effective_subcarrier_ind` (via NumPy's
negative-index delete) keeps subcarrier 7 and drops 8; with the identity
stream table and no channel, the demapper then returns the untouched zero
of the DC element instead of the third data symbol: demap(map(x)) ≠ x. -/
theorem mapper_demapper_counterexample :
    rgConstructOk cfgC5 PilotPolicy.auto qOne = true
    ∧ demap cfgC5 maskC5 0 1 id 1 (mapGrid cfgC5 maskC5 pilC5 3 xData) 0 0 0 2
        ≠ xData 0 0 0 2 := by
  exact ⟨by decide, by decide⟩

/-- Claim C1 witness: the amended round trip evaluated on the witness grid
`cfgW1` (2 OFDM symbols, 4 subcarriers, one guard, nulled DC, one pilot,
three data symbols) at batch index 5 and data index 2. -/
theorem mapper_demapper_roundtrip_witness :
    demap cfgW1 maskW1 1 1 id 1 (mapGrid cfgW1 maskW1 pilW1 3 xData) 5 0 0 2
      = xData 5 0 0 2 := by
  exact mapper_demapper_roundtrip Int cfgW1 maskW1 pilW1 1 3 xData id
    ⟨rfl, rfl, rfl, by decide, by decide, by decide⟩ (by decide) (by decide)
    (fun i => rfl) 5 0 0 2 (by decide) (by decide) (by decide)

end Sionna
